import Mathlib

/-!
Verification of the netlist-graph engine (netlist-paths) against its
specification.  The C++ sources are shallowly embedded below:

* `Graph`, `Vertex` model the boost adjacency list of `Graph.hpp`
  (vertices carried in a list, vertex id = list index, edges a list of
  id pairs preserving insertion order, duplicates permitted);
* `splitRegVertices` embeds `Graph::splitRegVertices` (Graph.cpp);
* the DFS visitor / `determinePath` / `determineAllPaths` /
  `getAllFanOut` / `getAllFanIn` / `getAnyPointToPoint` /
  `getAllPointToPoint` embed the query engine of Graph.cpp;
* name resolution and the waypoint layer embed Netlist.cpp and the
  `NetlistPaths` wrapper header;
* the XML walker embeds ReadVerilatorXML.cpp.

Source locations are elided everywhere (no claim concerns them), and the
data-type registry is elided (no claim concerns it).  Members of the
`Vertex` class whose header is not in the repository (`isReg`,
`isStartPoint`, `isFinishPoint`, kind predicates) are modelled from the
specification, as marked.
-/

namespace NetlistPathsModel

/-- Variable roles, from the spec data model and the `VAR` / `SRC_REG` /
`DST_REG` rendering used by the dot writer and the tests. -/
inductive Role where
  | varRole | srcReg | dstReg | regAlias | deleted
deriving DecidableEq, Repr

/-- Logic statement kinds (`VertexAstType` logic constructors).  The
dispatcher maps `assign`, `assignw` and `contassign` all to `ASSIGN`
(ReadVerilatorXML.cpp lines 94-99), so `assignW` is never produced. -/
inductive LogicKind where
  | assign | assignAlias | assignDly | assignW | always | alwaysPublic
  | initialK | instanceK | senGate | senItem | cFunc
deriving DecidableEq, Repr

/-- A vertex is exactly a variable (with role) or a logic statement. -/
inductive VKind where
  | varV (r : Role)
  | logicV (k : LogicKind)
deriving DecidableEq, Repr

/-- Port direction of a variable vertex. -/
inductive Dir where
  | input | output | inout | noneDir
deriving DecidableEq, Repr

structure Vertex where
  vtype : VKind
  name : String
  dir : Dir
  isParam : Bool
deriving DecidableEq, Repr

instance : Inhabited Vertex := ⟨⟨VKind.varV Role.varRole, "", Dir.noneDir, false⟩⟩

/-- The graph store: vertex id = index into `vertices`; `edges` keeps
insertion order and permits duplicates, like the boost adjacency list. -/
structure Graph where
  vertices : List Vertex
  edges : List (Nat × Nat)
deriving DecidableEq, Repr

def emptyGraph : Graph := ⟨[], []⟩

def vertexAt (g : Graph) (i : Nat) : Option Vertex := g.vertices[i]?

def isLogicAt (g : Graph) (i : Nat) : Bool :=
  match vertexAt g i with
  | some v => match v.vtype with | VKind.logicV _ => true | _ => false
  | none => false

def isVarAt (g : Graph) (i : Nat) : Bool :=
  match vertexAt g i with
  | some v => match v.vtype with | VKind.varV _ => true | _ => false
  | none => false

/-- `Vertex::isPort`, modelled from the spec: a variable with direction
`input`, `output` or `inout`. -/
def isPortV (v : Vertex) : Bool :=
  match v.vtype, v.dir with
  | VKind.varV _, Dir.input => true
  | VKind.varV _, Dir.output => true
  | VKind.varV _, Dir.inout => true
  | _, _ => false

def isPortAt (g : Graph) (i : Nat) : Bool :=
  match vertexAt g i with
  | some v => isPortV v
  | none => false

def dirAt (g : Graph) (i : Nat) : Dir :=
  match vertexAt g i with
  | some v => v.dir
  | none => Dir.noneDir

/-- `Vertex::isReg` / `isDstReg`: the flag set by `setVertexDstReg`
during loading; modelled from the spec (role `dst_reg`). -/
def isRegV (v : Vertex) : Bool := v.vtype == VKind.varV Role.dstReg

def isRegAt (g : Graph) (i : Nat) : Bool :=
  match vertexAt g i with
  | some v => isRegV v
  | none => false

def isSrcRegAt (g : Graph) (i : Nat) : Bool :=
  match vertexAt g i with
  | some v => v.vtype == VKind.varV Role.srcReg
  | none => false

def isDstRegAt (g : Graph) (i : Nat) : Bool := isRegAt g i

/-- `Vertex::setSrcReg` on a copy of a register vertex. -/
def setSrcRegV (v : Vertex) : Vertex := { v with vtype := VKind.varV Role.srcReg }

/-- `Vertex::isStartPoint`, modelled from the spec: a variable vertex
that may originate a combinational path - ports of direction `input` or
`inout`, or `src_reg` twins. -/
def isStartPointV (v : Vertex) : Bool :=
  match v.vtype with
  | VKind.varV r =>
      (v.dir == Dir.input || v.dir == Dir.inout || r == Role.srcReg) && !(r == Role.deleted)
  | VKind.logicV _ => false

/-- `Vertex::isFinishPoint` (end point), modelled from the spec: ports of
direction `output` or `inout`, or `dst_reg`. -/
def isFinishPointV (v : Vertex) : Bool :=
  match v.vtype with
  | VKind.varV r =>
      (v.dir == Dir.output || v.dir == Dir.inout || r == Role.dstReg) && !(r == Role.deleted)
  | VKind.logicV _ => false

/-- `Vertex::isMidPoint`, modelled from the spec: any non-logic,
non-deleted variable vertex. -/
def isMidPointV (v : Vertex) : Bool :=
  match v.vtype with
  | VKind.varV r => !(r == Role.deleted)
  | VKind.logicV _ => false

def isStartPointAt (g : Graph) (i : Nat) : Bool :=
  match vertexAt g i with
  | some v => isStartPointV v
  | none => false

def isFinishPointAt (g : Graph) (i : Nat) : Bool :=
  match vertexAt g i with
  | some v => isFinishPointV v
  | none => false

def isMidPointAt (g : Graph) (i : Nat) : Bool :=
  match vertexAt g i with
  | some v => isMidPointV v
  | none => false

/-- `Vertex::getAstTypeStr`, from the dot-writer spec and the tests:
logic vertices render their statement kind, variables their role. -/
def astTypeStrV (v : Vertex) : String :=
  match v.vtype with
  | VKind.varV Role.varRole => "VAR"
  | VKind.varV Role.srcReg => "SRC_REG"
  | VKind.varV Role.dstReg => "DST_REG"
  | VKind.varV Role.regAlias => "REG_ALIAS"
  | VKind.varV Role.deleted => "DELETED"
  | VKind.logicV LogicKind.assign => "ASSIGN"
  | VKind.logicV LogicKind.assignAlias => "ASSIGN_ALIAS"
  | VKind.logicV LogicKind.assignDly => "ASSIGN_DLY"
  | VKind.logicV LogicKind.assignW => "ASSIGN_W"
  | VKind.logicV LogicKind.always => "ALWAYS"
  | VKind.logicV LogicKind.alwaysPublic => "ALWAYS_PUBLIC"
  | VKind.logicV LogicKind.initialK => "INITIAL"
  | VKind.logicV LogicKind.instanceK => "INSTANCE"
  | VKind.logicV LogicKind.senGate => "SEN_GATE"
  | VKind.logicV LogicKind.senItem => "SEN_ITEM"
  | VKind.logicV LogicKind.cFunc => "C_FUNC"

def nameAt (g : Graph) (i : Nat) : String :=
  match vertexAt g i with
  | some v => v.name
  | none => ""

def astTypeStrAt (g : Graph) (i : Nat) : String :=
  match vertexAt g i with
  | some v => astTypeStrV v
  | none => ""

/-- `boost::add_edge`: edges are appended in insertion order. -/
def addEdgeG (g : Graph) (s t : Nat) : Graph := { g with edges := g.edges ++ [(s, t)] }

/-- `boost::remove_edge(u, v, graph)` removes all `(u,v)` edges of an
adjacency list. -/
def removeEdgeAll (g : Graph) (s t : Nat) : Graph :=
  { g with edges := g.edges.filter (fun e => !(e == (s, t))) }

/-- Out edge targets of `v` in insertion order (`BGL_FORALL_ADJ`),
duplicates included. -/
def succsG (g : Graph) (v : Nat) : List Nat :=
  (g.edges.filter (fun e => e.1 == v)).map (fun e => e.2)

def outDegree (g : Graph) (v : Nat) : Nat :=
  (g.edges.filter (fun e => e.1 == v)).length

def inDegree (g : Graph) (v : Nat) : Nat :=
  (g.edges.filter (fun e => e.2 == v)).length

/-! ## `Graph::splitRegVertices` (Graph.cpp lines 143-162)

For every register vertex collect its adjacent vertices, append a source
register twin, and move each out edge to the twin (`remove_edge` then
`add_edge`, while not iterating).  `BGL_FORALL_VERTICES` over a `vecS`
graph captures the original vertex range, so only the original ids are
visited. -/

def splitMoveEdges (v twinId : Nat) (adjacent : List Nat) (g : Graph) : Graph :=
  adjacent.foldl (fun h a => addEdgeG (removeEdgeAll h v a) twinId a) g

def splitOne (g : Graph) (v : Nat) : Graph :=
  if isRegAt g v then
    let adjacent := succsG g v
    let twinId := g.vertices.length
    let g1 : Graph := { g with vertices := g.vertices ++ [setSrcRegV ((vertexAt g v).getD default)] }
    splitMoveEdges v twinId adjacent g1
  else g

def splitRegVertices (g : Graph) : Graph :=
  (List.range g.vertices.length).foldl splitOne g

/-! ## The DFS engine (Graph.cpp `DfsVisitor`, lines 27-56)

`boost::depth_first_search` discovers the root first and then every
remaining undiscovered vertex in id order.  The visitor records, in tree
mode (`allPaths = false`), one parent per tree edge; in all-edges mode
(`allPaths = true`), one parent per examined edge.  The parent map is a
list of `(child, parent)` pairs in push order; `pmLookup` recovers the
per-vertex parent vector. -/

/-- The avoid-point filter (`VertexPredicate` + `boost::keep_all`): an
edge is visible when neither endpoint is an avoid point. -/
def filteredSuccs (g : Graph) (avoid : List Nat) (u : Nat) : List Nat :=
  if avoid.contains u then []
  else (g.edges.filter (fun e => e.1 == u && !(avoid.contains e.2))).map (fun e => e.2)

structure DfsState where
  visited : List Nat
  parent : List (Nat × Nat)
deriving DecidableEq, Repr

def pushParent (st : DfsState) (c p : Nat) : DfsState :=
  ⟨st.visited, st.parent ++ [(c, p)]⟩

/-- The recursive DFS visit.  `fuel` is a bound on recursion depth (the
C++ recursion is bounded by the number of vertices); every caller
supplies ample fuel.  Each out edge of `u` is examined in order: in all
mode the edge is recorded; if the target is undiscovered, in tree mode
the edge is recorded, and the target is marked discovered and
visited. -/
def dfsVisit (g : Graph) (avoid : List Nat) (allMode : Bool) :
    Nat → Nat → DfsState → DfsState
  | 0, _, st => st
  | fuel + 1, u, st =>
    (filteredSuccs g avoid u).foldl
      (fun st' v =>
        let st1 := cond allMode (pushParent st' v u) st'
        if st1.visited.contains v then st1
        else
          dfsVisit g avoid allMode fuel v
            (cond allMode ⟨st1.visited ++ [v], st1.parent⟩
                          ⟨st1.visited ++ [v], st1.parent ++ [(v, u)]⟩))
      st

/-- `boost::depth_first_search` with a `root_vertex`: visit the root,
then every remaining unvisited (and unfiltered) vertex in id order. -/
def depthFirstSearch (g : Graph) (avoid : List Nat) (allMode : Bool) (root : Nat) :
    DfsState :=
  let fuel := g.edges.length + 2
  let st0 := dfsVisit g avoid allMode fuel root { visited := [root], parent := [] }
  (List.range g.vertices.length).foldl
    (fun st v =>
      if avoid.contains v || st.visited.contains v then st
      else dfsVisit g avoid allMode fuel v ⟨st.visited ++ [v], st.parent⟩)
    st0

/-- `parentMap[v]`, in push order. -/
def pmLookup (pm : List (Nat × Nat)) (v : Nat) : List Nat :=
  (pm.filter (fun e => e.1 == v)).map (fun e => e.2)

/-! ## Path reconstruction (Graph.cpp lines 350-394) -/

/-- `Graph::determinePath`: climb the parent map from `finishVertex` to
`startVertex`.  Result `some []` is the no-path sentinel
(`return VertexIDVec()`); `none` models a failed assertion (parent entry
of size other than one, or a cycle) or exhausted fuel - neither occurs
for tree-mode parent maps. -/
def determinePath (pm : List (Nat × Nat)) :
    Nat → List Nat → Nat → Nat → Option (List Nat)
  | 0, _, _, _ => none
  | fuel + 1, path, startVertex, finishVertex =>
    let path1 := path ++ [finishVertex]
    if finishVertex = startVertex then some path1
    else
      match pmLookup pm finishVertex with
      | [] => some []
      | [next] =>
          if path1.contains next then none
          else determinePath pm fuel path1 startVertex next
      | _ => none

mutual

/-- `Graph::determineAllPaths`: depth-first reconstruction of every
simple path from the parent map, skipping vertices already on the
current path.  Results are returned in discovery order. -/
def determineAllPaths (pm : List (Nat × Nat)) :
    Nat → List Nat → Nat → Nat → List (List Nat)
  | 0, _, _, _ => []
  | fuel + 1, path, startVertex, finishVertex =>
    let path1 := path ++ [finishVertex]
    if finishVertex = startVertex then [path1]
    else dapList pm fuel path1 startVertex (pmLookup pm finishVertex)
termination_by fuel _ _ _ => (fuel, 0)

/-- Iteration over `parentMap[finishVertex]` inside
`determineAllPaths`. -/
def dapList (pm : List (Nat × Nat)) :
    Nat → List Nat → Nat → List Nat → List (List Nat)
  | _, _, _, [] => []
  | fuel, path, startVertex, u :: us =>
      (if path.contains u then [] else determineAllPaths pm fuel path startVertex u) ++
      dapList pm fuel path startVertex us
termination_by fuel _ _ l => (fuel, l.length + 1)

end

/-! ## Query operations (Graph.cpp lines 397-544) -/

/-- `Graph::getAllFanOut`: tree DFS from `startVertex` over the whole
graph, then collect a reversed climb path for every finish point.
`none` models an aborted assertion inside `determinePath`. -/
def getAllFanOut (g : Graph) (startVertex : Nat) : Option (List (List Nat)) :=
  let st := depthFirstSearch g [] false startVertex
  (List.range g.vertices.length).foldl
    (fun acc v =>
      match acc with
      | none => none
      | some paths =>
        if isFinishPointAt g v then
          match determinePath st.parent (st.visited.length + 1) [] startVertex v with
          | none => none
          | some p => some (if p.isEmpty then paths else paths ++ [p.reverse])
        else some paths)
    (some [])

/-- `boost::make_reverse_graph`: same vertices, each edge flipped (the
reverse adjacency preserves insertion order). -/
def reverseGraph (g : Graph) : Graph :=
  { g with edges := g.edges.map (fun e => (e.2, e.1)) }

/-- `Graph::getAllFanIn`: tree DFS on the reverse graph from
`finishVertex`, then collect the climb path for every start point,
without reversing it. -/
def getAllFanIn (g : Graph) (finishVertex : Nat) : Option (List (List Nat)) :=
  let rg := reverseGraph g
  let st := depthFirstSearch rg [] false finishVertex
  (List.range g.vertices.length).foldl
    (fun acc v =>
      match acc with
      | none => none
      | some paths =>
        if isStartPointAt g v then
          match determinePath st.parent (st.visited.length + 1) [] finishVertex v with
          | none => none
          | some p => some (if p.isEmpty then paths else paths ++ [p])
        else some paths)
    (some [])

/-- The body of `Graph::getAllFanOut` generalised over the predicate
selecting collected endpoints, used to state how fan-in relates to the
fan-out procedure run on the reverse graph. -/
def fanOutGen (g : Graph) (endSel : Graph → Nat → Bool) (startVertex : Nat) :
    Option (List (List Nat)) :=
  let st := depthFirstSearch g [] false startVertex
  (List.range g.vertices.length).foldl
    (fun acc v =>
      match acc with
      | none => none
      | some paths =>
        if endSel g v then
          match determinePath st.parent (st.visited.length + 1) [] startVertex v with
          | none => none
          | some p => some (if p.isEmpty then paths else paths ++ [p.reverse])
        else some paths)
    (some [])

/-- Per-stage results of `Graph::getAnyPointToPoint`: `ub` models the
aborted assertion inside `determinePath`, `nopath` the early
`return VertexIDVec()`. -/
inductive StageRes where
  | ub
  | nopath
  | path (l : List Nat)
deriving DecidableEq, Repr

/-- The loop of `Graph::getAnyPointToPoint` over adjacent waypoint
pairs: tree DFS on the filtered graph, climb, reverse, and concatenate
dropping the duplicated join vertex. -/
def anyStages (g : Graph) (avoid : List Nat) : Nat → List Nat → StageRes
  | _, [] => StageRes.path []
  | s, f :: rest =>
    let st := depthFirstSearch g avoid false s
    match determinePath st.parent (st.visited.length + 1) [] s f with
    | none => StageRes.ub
    | some [] => StageRes.nopath
    | some sub =>
      match anyStages g avoid f rest with
      | StageRes.ub => StageRes.ub
      | StageRes.nopath => StageRes.nopath
      | StageRes.path l => StageRes.path (sub.reverse.dropLast ++ l)

/-- `Graph::getAnyPointToPoint` (Graph.cpp lines 514-544).  With an
empty waypoint list the loop bound `waypointIDs.size()-1` underflows
`size_t` and the first iteration indexes the empty vector out of bounds;
`none` models that undefined behaviour. -/
def getAnyPointToPoint (g : Graph) (waypointIDs avoidPointIDs : List Nat) :
    Option (List Nat) :=
  match waypointIDs with
  | [] => none
  | w :: rest =>
    match anyStages g avoidPointIDs w rest with
    | StageRes.ub => none
    | StageRes.nopath => some []
    | StageRes.path l => some (l ++ [(w :: rest).getLastD w])

/-- `pathProduct` (Graph.cpp lines 452-471): cartesian product of the
per-stage path lists; each sub path is reversed and its final vertex
dropped before appending. -/
def pathProduct (intPaths : List (List (List Nat))) : List (List Nat) :=
  intPaths.foldl
    (fun resultPaths stagePaths =>
      resultPaths.foldl
        (fun acc resultPath =>
          acc ++ stagePaths.map (fun subPath => resultPath ++ subPath.reverse.dropLast))
        [])
    [[]]

/-- The loop of `Graph::getAllPointToPoint` over adjacent waypoint
pairs: all-edges DFS on the filtered graph and full path enumeration;
`none` models the early `return {}` when a stage has no paths. -/
def allStages (g : Graph) (avoid : List Nat) : Nat → List Nat → Option (List (List (List Nat)))
  | _, [] => some []
  | s, f :: rest =>
    let st := depthFirstSearch g avoid true s
    let paths := determineAllPaths st.parent (st.parent.length + 2) [] s f
    if paths.isEmpty then none
    else (allStages g avoid f rest).map (fun l => paths :: l)

/-- `Graph::getAllPointToPoint` (Graph.cpp lines 475-511).  As with
`getAnyPointToPoint`, an empty waypoint list underflows the loop bound
and indexes the empty vector: `none` models that undefined
behaviour. -/
def getAllPointToPoint (g : Graph) (waypointIDs avoidPointIDs : List Nat) :
    Option (List (List Nat)) :=
  match waypointIDs with
  | [] => none
  | w :: rest =>
    match allStages g avoidPointIDs w rest with
    | none => some []
    | some intPaths =>
        some ((pathProduct intPaths).map (fun p => p ++ [(w :: rest).getLastD w]))

/-- `Netlist::pathExists` at the level of resolved waypoint ids:
`!graph.getAnyPointToPoint(...).empty()`. -/
def pathExistsIDs (g : Graph) (waypointIDs avoidPointIDs : List Nat) : Option Bool :=
  (getAnyPointToPoint g waypointIDs avoidPointIDs).map (fun l => !l.isEmpty)

/-- Reachability in the filtered graph: the reflexive-transitive closure
of visible edges.  This is the specification-side notion "a directed
path exists (respecting avoid points)". -/
inductive ReachableF (g : Graph) (avoid : List Nat) : Nat → Nat → Prop
  | refl (v : Nat) : ReachableF g avoid v v
  | step {s u v : Nat} : ReachableF g avoid s u → v ∈ filteredSuccs g avoid u →
      ReachableF g avoid s v

/-! ### Concrete graphs used as inputs of witnesses and counterexamples -/

/-- Two isolated variable vertices: no path between them. -/
def gTwoIsolated : Graph :=
  ⟨[⟨VKind.varV Role.varRole, "a", Dir.input, false⟩,
    ⟨VKind.varV Role.varRole, "b", Dir.output, false⟩], []⟩

/-- `in -> ASSIGN -> out`: one combinational path from an input port to
an output port. -/
def gChain : Graph :=
  ⟨[⟨VKind.varV Role.varRole, "in", Dir.input, false⟩,
    ⟨VKind.logicV LogicKind.assign, "", Dir.noneDir, false⟩,
    ⟨VKind.varV Role.varRole, "out", Dir.output, false⟩],
   [(0, 1), (1, 2)]⟩

/-- `in -> ASSIGN_DLY -> q` where `q` is a register that also has an out
edge back to the logic: exercises the register split. -/
def gRegChain : Graph :=
  ⟨[⟨VKind.varV Role.varRole, "in", Dir.input, false⟩,
    ⟨VKind.logicV LogicKind.assignDly, "", Dir.noneDir, false⟩,
    ⟨VKind.varV Role.dstReg, "q", Dir.noneDir, false⟩],
   [(0, 1), (1, 2), (2, 1)]⟩

/-- Invariant of the DFS state: discovery order is duplicate free, every
parent-map entry is a real visible edge, and in tree mode every entry
relates a later-discovered child to an earlier-discovered parent and
each child has at most one parent. -/
def DfsInv (g : Graph) (avoid : List Nat) (allMode : Bool) (st : DfsState) : Prop :=
  st.visited.Nodup ∧
  (∀ c p, (c, p) ∈ st.parent → c ∈ filteredSuccs g avoid p) ∧
  (allMode = false →
    (∀ c p, (c, p) ∈ st.parent →
      p ∈ st.visited ∧ c ∈ st.visited ∧
      st.visited.indexOf p < st.visited.indexOf c) ∧
    (∀ c, (pmLookup st.parent c).length ≤ 1))

/-! ## Name resolution (Graph.cpp lines 255-338, Netlist.cpp)

The process-wide options singleton becomes an explicit `Options` value.
`std::regex` is an external engine: regex search is modelled as an
arbitrary Boolean matcher argument `rmatch`, so every statement below
holds for any regex semantics.  `wildcardMatch` lives in the utilities
file that is not part of this repository snapshot and is modelled from
the spec: `?` matches one character, `*` matches any run. -/

inductive MatchMode where
  | exact | regex | wildcard
deriving DecidableEq, Repr

structure Options where
  matchMode : MatchMode
  ignoreHierarchyMarkers : Bool
  matchAnyVertex : Bool
deriving DecidableEq, Repr

/-- `VertexGraphType` selector values used by the resolver. -/
inductive VertexGraphType where
  | any | reg | regAlias | startPoint | endPoint | midPoint | isNamed
deriving DecidableEq, Repr

/-- `Vertex::isGraphType`, modelled from the spec kind semantics. -/
def isGraphTypeAt (g : Graph) (v : Nat) : VertexGraphType → Bool
  | VertexGraphType.any => true
  | VertexGraphType.reg => isDstRegAt g v
  | VertexGraphType.regAlias =>
      match vertexAt g v with
      | some w => w.vtype == VKind.varV Role.regAlias
      | none => false
  | VertexGraphType.startPoint => isStartPointAt g v
  | VertexGraphType.endPoint => isFinishPointAt g v
  | VertexGraphType.midPoint => isMidPointAt g v
  | VertexGraphType.isNamed =>
      match vertexAt g v with
      | some w => isMidPointV w
      | none => false

/-- `Graph::vertexTypeMatch`: `ANY` matches everything, `REG` matches
only the destination half (registers are duplicated into SRC and DST). -/
def vertexTypeMatch (g : Graph) (v : Nat) (t : VertexGraphType) : Bool :=
  match t with
  | VertexGraphType.any => true
  | VertexGraphType.reg => isDstRegAt g v
  | _ => isGraphTypeAt g v t

def replaceChar (c r : Char) (s : String) : String :=
  String.mk (s.toList.map (fun x => if x = c then r else x))

/-- Modelled from the spec: wildcard matching where `?` matches a single
character and `*` matches any run (the utilities translation unit is not
part of this snapshot).  `fuel` bounds the recursion; each step shrinks
`name ++ pattern`, so the caller's fuel is ample. -/
def wildcardMatchFuel : Nat → List Char → List Char → Bool
  | 0, _, _ => false
  | _ + 1, [], [] => true
  | fuel + 1, [], p :: ps => if p = '*' then wildcardMatchFuel fuel [] ps else false
  | _ + 1, _ :: _, [] => false
  | fuel + 1, n :: ns, p :: ps =>
      if p = '*' then
        wildcardMatchFuel fuel (n :: ns) ps || wildcardMatchFuel fuel ns (p :: ps)
      else if p = '?' || p = n then wildcardMatchFuel fuel ns ps
      else false

def wildcardMatch (name pattern : String) : Bool :=
  wildcardMatchFuel (name.length + pattern.length + 1) name.toList pattern.toList

/-- `Graph::getVerticesWildcard`: hierarchy markers in the pattern
become single-character wildcards when the option is set. -/
def getVerticesWildcard (g : Graph) (opts : Options) (name : String)
    (graphType : VertexGraphType) : List Nat :=
  let nameStr :=
    if opts.ignoreHierarchyMarkers then
      replaceChar '_' '?' (replaceChar '.' '?' (replaceChar '/' '?' name))
    else name
  (List.range g.vertices.length).filter
    (fun v => vertexTypeMatch g v graphType && wildcardMatch (nameAt g v) nameStr)

/-- `Graph::getVerticesRegex`: `/` and `_` become `.` when the option is
set ( `.` already matches any character); the external regex engine is
the matcher `rmatch`. -/
def getVerticesRegex (g : Graph) (opts : Options) (rmatch : String → String → Bool)
    (name : String) (graphType : VertexGraphType) : List Nat :=
  let nameStr :=
    if opts.ignoreHierarchyMarkers then replaceChar '_' '.' (replaceChar '/' '.' name)
    else name
  (List.range g.vertices.length).filter
    (fun v => vertexTypeMatch g v graphType && rmatch (nameAt g v) nameStr)

/-- `Graph::getVertexExact`: the first vertex whose name matches
exactly, or the null vertex. -/
def getVertexExact (g : Graph) (name : String) (graphType : VertexGraphType) :
    Option Nat :=
  (List.range g.vertices.length).find?
    (fun v => vertexTypeMatch g v graphType && nameAt g v == name)

/-- `Graph::getVertices`: dispatch on the active match mode; exact mode
returns at most the one vertex found by `getVertexExact`. -/
def getVertices (g : Graph) (opts : Options) (rmatch : String → String → Bool)
    (name : String) (graphType : VertexGraphType) : List Nat :=
  match opts.matchMode with
  | MatchMode.exact =>
      match getVertexExact g name graphType with
      | some v => [v]
      | none => []
  | MatchMode.regex => getVerticesRegex g opts rmatch name graphType
  | MatchMode.wildcard => getVerticesWildcard g opts name graphType

/-! ## The waypoint layer (Netlist.cpp) -/

/-- Failures reported to the caller.  `Netlist::reportMultipleMatches`
builds a message listing every candidate; the structured constructor
carries the same data (pattern kind, pattern, and each candidate's name
and ast-type string). -/
inductive Err where
  | multipleMatches (patternType : String) (pattern : String)
      (candidates : List (String × String))
  | exception (msg : String)
  | xmlError (msg : String)
  | assertFail (msg : String)
  | undefinedBehavior (msg : String)
deriving DecidableEq, Repr

/-- `Netlist::reportMultipleMatches` (Netlist.cpp lines 34-45). -/
def reportMultipleMatches (g : Graph) (vertices : List Nat) (name : String)
    (patternType : String) : Err :=
  Err.multipleMatches patternType name
    (vertices.map (fun v => (nameAt g v, astTypeStrAt g v)))

/-- `Netlist::getStartVertex` (Netlist.cpp lines 93-108). -/
def getStartVertex (g : Graph) (opts : Options) (rmatch : String → String → Bool)
    (name : String) (matchAny : Bool) : Except Err (Option Nat) :=
  let vertices := getVertices g opts rmatch name VertexGraphType.startPoint
  if !matchAny then
    if vertices.length > 1 then
      Except.error (reportMultipleMatches g vertices name "begin point")
    else
      match vertices with
      | v :: _ => Except.ok (some v)
      | [] => Except.ok none
  else
    match vertices with
    | v :: _ => Except.ok (some v)
    | [] => Except.ok none

/-- `Netlist::getEndVertex` (Netlist.cpp lines 110-125). -/
def getEndVertex (g : Graph) (opts : Options) (rmatch : String → String → Bool)
    (name : String) (matchAny : Bool) : Except Err (Option Nat) :=
  let vertices := getVertices g opts rmatch name VertexGraphType.endPoint
  if !matchAny then
    if vertices.length > 1 then
      Except.error (reportMultipleMatches g vertices name "end point")
    else
      match vertices with
      | v :: _ => Except.ok (some v)
      | [] => Except.ok none
  else
    match vertices with
    | v :: _ => Except.ok (some v)
    | [] => Except.ok none

/-- `Netlist::getMidVertex` (Netlist.cpp lines 127-142). -/
def getMidVertex (g : Graph) (opts : Options) (rmatch : String → String → Bool)
    (name : String) (matchAny : Bool) : Except Err (Option Nat) :=
  let vertices := getVertices g opts rmatch name VertexGraphType.midPoint
  if !matchAny then
    if vertices.length > 1 then
      Except.error (reportMultipleMatches g vertices name "mid point")
    else
      match vertices with
      | v :: _ => Except.ok (some v)
      | [] => Except.ok none
  else
    match vertices with
    | v :: _ => Except.ok (some v)
    | [] => Except.ok none

/-- `Netlist::getRegVertex` (Netlist.cpp lines 59-74). -/
def getRegVertex (g : Graph) (opts : Options) (rmatch : String → String → Bool)
    (name : String) (matchAny : Bool) : Except Err (Option Nat) :=
  let vertices := getVertices g opts rmatch name VertexGraphType.reg
  if !matchAny then
    if vertices.length > 1 then
      Except.error (reportMultipleMatches g vertices name "register")
    else
      match vertices with
      | v :: _ => Except.ok (some v)
      | [] => Except.ok none
  else
    match vertices with
    | v :: _ => Except.ok (some v)
    | [] => Except.ok none

/-- A `Waypoints` value: the begin point, through points and end point
in sequence, plus the avoid set. -/
structure Waypoints where
  waypoints : List String
  avoidPoints : List String
deriving DecidableEq, Repr

def resolveFirst (g : Graph) (opts : Options) (rmatch : String → String → Bool)
    (w : String) (matchAny : Bool) : Except Err Nat :=
  match getStartVertex g opts rmatch w matchAny with
  | Except.error e => Except.error e
  | Except.ok none =>
      Except.error (Err.exception ("could not find start vertex matching " ++ w))
  | Except.ok (some v) => Except.ok v

def resolveLast (g : Graph) (opts : Options) (rmatch : String → String → Bool)
    (w : String) (matchAny : Bool) : Except Err Nat :=
  match getEndVertex g opts rmatch w matchAny with
  | Except.error e => Except.error e
  | Except.ok none =>
      Except.error (Err.exception ("could not find end vertex matching " ++ w))
  | Except.ok (some v) => Except.ok v

def resolveMid (g : Graph) (opts : Options) (rmatch : String → String → Bool)
    (w : String) (matchAny : Bool) : Except Err Nat :=
  match getMidVertex g opts rmatch w matchAny with
  | Except.error e => Except.error e
  | Except.ok none =>
      Except.error (Err.exception ("could not find through vertex " ++ w))
  | Except.ok (some v) => Except.ok v

/-- The iterator loop of `Netlist::readWaypoints` (lines 183-210): the
first waypoint resolves as a start point (also when it is the only one),
the last as an end point, interior ones as mid points.  An empty
waypoint list produces an empty id vector with no error. -/
def readWaypointsGo (g : Graph) (opts : Options) (rmatch : String → String → Bool)
    (matchAny : Bool) : Bool → List String → Except Err (List Nat)
  | _, [] => Except.ok []
  | isFirst, w :: rest =>
    let r :=
      if isFirst then resolveFirst g opts rmatch w matchAny
      else if rest.isEmpty then resolveLast g opts rmatch w matchAny
      else resolveMid g opts rmatch w matchAny
    match r with
    | Except.error e => Except.error e
    | Except.ok v =>
        match readWaypointsGo g opts rmatch matchAny false rest with
        | Except.error e => Except.error e
        | Except.ok vs => Except.ok (v :: vs)

def readWaypoints (g : Graph) (opts : Options) (rmatch : String → String → Bool)
    (wp : Waypoints) : Except Err (List Nat) :=
  readWaypointsGo g opts rmatch opts.matchAnyVertex true wp.waypoints

/-- Insertion sort standing in for the `std::sort` of the avoid ids
(only the resulting set matters to the filter). -/
def insertSorted (x : Nat) : List Nat → List Nat
  | [] => [x]
  | y :: ys => if x ≤ y then x :: y :: ys else y :: insertSorted x ys

def sortNat (l : List Nat) : List Nat := l.foldr insertSorted []

/-- `Netlist::readAvoidPoints` (lines 212-224). -/
def readAvoidPointsGo (g : Graph) (opts : Options) (rmatch : String → String → Bool)
    (matchAny : Bool) : List String → Except Err (List Nat)
  | [] => Except.ok []
  | w :: rest =>
    match getMidVertex g opts rmatch w matchAny with
    | Except.error e => Except.error e
    | Except.ok none =>
        Except.error (Err.exception ("could not find vertex to avoid " ++ w))
    | Except.ok (some v) =>
        match readAvoidPointsGo g opts rmatch matchAny rest with
        | Except.error e => Except.error e
        | Except.ok vs => Except.ok (v :: vs)

def readAvoidPoints (g : Graph) (opts : Options) (rmatch : String → String → Bool)
    (wp : Waypoints) : Except Err (List Nat) :=
  match readAvoidPointsGo g opts rmatch opts.matchAnyVertex wp.avoidPoints with
  | Except.error e => Except.error e
  | Except.ok vs => Except.ok (sortNat vs)

/-- `Netlist::pathExists` (lines 255-259). -/
def netlistPathExists (g : Graph) (opts : Options) (rmatch : String → String → Bool)
    (wp : Waypoints) : Except Err Bool :=
  match readWaypoints g opts rmatch wp with
  | Except.error e => Except.error e
  | Except.ok wids =>
    match readAvoidPoints g opts rmatch wp with
    | Except.error e => Except.error e
    | Except.ok aids =>
      match getAnyPointToPoint g wids aids with
      | none => Except.error (Err.undefinedBehavior
          "getAnyPointToPoint: empty waypoint vector indexed out of bounds")
      | some l => Except.ok (!l.isEmpty)

/-- `Netlist::getAnyPath` (lines 261-266). -/
def netlistGetAnyPath (g : Graph) (opts : Options) (rmatch : String → String → Bool)
    (wp : Waypoints) : Except Err (List Nat) :=
  match readWaypoints g opts rmatch wp with
  | Except.error e => Except.error e
  | Except.ok wids =>
    match readAvoidPoints g opts rmatch wp with
    | Except.error e => Except.error e
    | Except.ok aids =>
      match getAnyPointToPoint g wids aids with
      | none => Except.error (Err.undefinedBehavior
          "getAnyPointToPoint: empty waypoint vector indexed out of bounds")
      | some l => Except.ok l

/-- `Netlist::getAllPaths` (lines 268-273). -/
def netlistGetAllPaths (g : Graph) (opts : Options) (rmatch : String → String → Bool)
    (wp : Waypoints) : Except Err (List (List Nat)) :=
  match readWaypoints g opts rmatch wp with
  | Except.error e => Except.error e
  | Except.ok wids =>
    match readAvoidPoints g opts rmatch wp with
    | Except.error e => Except.error e
    | Except.ok aids =>
      match getAllPointToPoint g wids aids with
      | none => Except.error (Err.undefinedBehavior
          "getAllPointToPoint: empty waypoint vector indexed out of bounds")
      | some paths => Except.ok paths

/-- `Netlist::getAllFanOut(startName)` (lines 275-281). -/
def getAllFanOutByName (g : Graph) (opts : Options) (rmatch : String → String → Bool)
    (startName : String) : Except Err (List (List Nat)) :=
  match getStartVertex g opts rmatch startName opts.matchAnyVertex with
  | Except.error e => Except.error e
  | Except.ok none =>
      Except.error (Err.exception ("could not find start vertex " ++ startName))
  | Except.ok (some v) =>
    match getAllFanOut g v with
    | none => Except.error (Err.assertFail "determinePath assertion failed")
    | some paths => Except.ok paths

/-- `Netlist::getAllFanIn(endName)` (lines 283-289). -/
def getAllFanInByName (g : Graph) (opts : Options) (rmatch : String → String → Bool)
    (endName : String) : Except Err (List (List Nat)) :=
  match getEndVertex g opts rmatch endName opts.matchAnyVertex with
  | Except.error e => Except.error e
  | Except.ok none =>
      Except.error (Err.exception ("could not find end vertex " ++ endName))
  | Except.ok (some v) =>
    match getAllFanIn g v with
    | none => Except.error (Err.assertFail "determinePath assertion failed")
    | some paths => Except.ok paths

/-- `NetlistPaths::pathExists` (NetlistPaths.hpp lines 69-82): resolve
the start and end points and return `false` - not an error - when either
is the null vertex; the single-argument resolvers of that wrapper are
the non-match-any resolvers. -/
def netlistPathsPathExists (g : Graph) (opts : Options)
    (rmatch : String → String → Bool) (start finish : String) : Except Err Bool :=
  match getStartVertex g opts rmatch start false with
  | Except.error e => Except.error e
  | Except.ok sp =>
    match getEndVertex g opts rmatch finish false with
    | Except.error e => Except.error e
    | Except.ok ep =>
      match sp, ep with
      | some s, some e =>
        match getAnyPointToPoint g [s, e] [] with
        | none => Except.error (Err.undefinedBehavior
            "getAnyPointToPoint: empty waypoint vector indexed out of bounds")
        | some l => Except.ok (!l.isEmpty)
      | _, _ => Except.ok false

/-- Exact-match options (regex matcher unused in exact mode). -/
def exactOptions : Options := ⟨MatchMode.exact, false, false⟩

/-- Wildcard-match options. -/
def wildcardOptions : Options := ⟨MatchMode.wildcard, false, false⟩

/-- A stand-in regex matcher for witnesses: plain string equality. -/
def eqMatcher : String → String → Bool := fun a b => a == b

/-- Two start/end/mid/register vertices with the same name `x`. -/
def gDupX : Graph :=
  ⟨[⟨VKind.varV Role.dstReg, "x", Dir.inout, false⟩,
    ⟨VKind.varV Role.dstReg, "x", Dir.inout, false⟩], []⟩

/-! ## The XML loader (ReadVerilatorXML.cpp)

The module walk is embedded over an XML tree.  Locations, the file
table and the data-type registry are elided (no claim concerns them);
required attributes whose absence would dereference a null pointer in
the C++ (`first_attribute(...)->value()`) are modelled as
undefined-behaviour errors, and failing C `assert`s as assertion
errors.  `fuel` bounds the recursion depth of the walk; `readXML`
passes the size of the tree, which is ample. -/


inductive XML where
  | mk (name : String) (attrs : List (String × String)) (children : List XML)

def XML.nameOf : XML → String
  | XML.mk n _ _ => n

def XML.attr : XML → String → Option String
  | XML.mk _ attrs _, k => attrs.lookup k

mutual
def xmlSize : XML → Nat
  | XML.mk _ _ children => 1 + xmlSizeList children
def xmlSizeList : List XML → Nat
  | [] => 0
  | x :: xs => xmlSize x + xmlSizeList xs
end

structure LoaderState where
  g : Graph
  vars : List (String × Nat)
  topName : String
  scopeDepth : Nat
  currentLogic : Option Nat
  isLValue : Bool
  isDelayedAssign : Bool
deriving DecidableEq, Repr

def initLoaderState : LoaderState := ⟨emptyGraph, [], "", 0, none, false, false⟩

/-- Character-list prefix test standing in for `name.rfind(other, 0) == 0`
(`String.startsWith`), kept structurally recursive. -/
def strBegins (s pre : String) : Bool :=
  strBeginsL s.toList pre.toList
where
  strBeginsL : List Char → List Char → Bool
    | _, [] => true
    | [], _ :: _ => false
    | c :: cs, p :: ps => if c = p then strBeginsL cs ps else false

/-- `ReadVerilatorXML::addTopPrefix` (lines 155-160): canonicalise a name
by prepending `<top>.` when the top name is known and not already a
prefix. -/
def addTopPfx (topName name : String) : String :=
  if topName ≠ "" ∧ strBegins name topName = false then topName ++ "." ++ name else name

def lookupVarVertexExact (st : LoaderState) (name : String) : Option Nat :=
  st.vars.lookup name

def lookupVarVertex (st : LoaderState) (name : String) : Option Nat :=
  match st.vars.lookup name with
  | some v => some v
  | none => st.vars.lookup (addTopPfx st.topName name)

def getVertexDirection (s : String) : Dir :=
  if s = "input" then Dir.input
  else if s = "output" then Dir.output
  else if s = "inout" then Dir.inout
  else Dir.noneDir

def setVertexDstRegG (g : Graph) (i : Nat) : Graph :=
  match g.vertices[i]? with
  | some v =>
      ⟨g.vertices.set i
        { v with vtype := match v.vtype with
            | VKind.varV _ => VKind.varV Role.dstReg
            | t => t },
       g.edges⟩
  | none => g

def setVertexDirectionG (g : Graph) (i : Nat) (d : Dir) : Graph :=
  match g.vertices[i]? with
  | some v => ⟨g.vertices.set i { v with dir := d }, g.edges⟩
  | none => g

def firstDotSegment (name : String) : String :=
  String.mk (name.toList.takeWhile (fun c => ¬ c = '.'))

def hasDot (name : String) : Bool := name.toList.contains '.'

def newVarW (attrs : List (String × String)) (children : List XML)
    (st : LoaderState) : Except Err LoaderState :=
  match attrs.lookup "name" with
  | none => Except.error (Err.undefinedBehavior "var: missing name attribute")
  | some name =>
  match attrs.lookup "name" with
  | none => Except.error (Err.undefinedBehavior "var: missing name attribute")
  | some name =>
    match attrs.lookup "loc" with
    | none => Except.error (Err.undefinedBehavior "var: missing loc attribute")
    | some _ =>
      match attrs.lookup "dtype_id" with
      | none => Except.error (Err.undefinedBehavior "var: missing dtype_id attribute")
      | some _ =>
        let direction :=
          match attrs.lookup "dir" with
          | some d => getVertexDirection d
          | none => Dir.noneDir
        let paramRes : Except Err Bool :=
          if (attrs.lookup "param").isSome then
            match children with
            | XML.mk "const" cattrs _ :: _ =>
              match cattrs.lookup "name" with
              | some _ => Except.ok true
              | none => Except.error (Err.undefinedBehavior "const: missing name attribute")
            | _ => Except.error (Err.assertFail "expect const node under param")
          else Except.ok false
        match paramRes with
        | Except.error e => Except.error e
        | Except.ok isParam =>
          let topRes : Except Err String :=
            if st.scopeDepth = 0 ∧ hasDot name = true ∧ strBegins name "__V" = false then
              if st.topName = "" then Except.ok (firstDotSegment name)
              else if st.topName = firstDotSegment name then Except.ok st.topName
              else Except.error (Err.assertFail "all name prefixes should match the top name")
            else Except.ok st.topName
          match topRes with
          | Except.error e => Except.error e
          | Except.ok topName1 =>
            let canonicalName := addTopPfx topName1 name
            let vid := st.g.vertices.length
            let g1 : Graph :=
              ⟨st.g.vertices ++ [⟨VKind.varV Role.varRole, canonicalName, direction, isParam⟩],
               st.g.edges⟩
            let vars1 :=
              if (st.vars.lookup canonicalName).isNone then st.vars ++ [(canonicalName, vid)]
              else st.vars
            let g2 :=
              match attrs.lookup "origName" with
              | none => g1
              | some orig =>
                match vars1.lookup orig with
                | none => g1
                | some pub =>
                  if pub ≠ vid ∧ isPortAt g1 pub = true ∧ isParam = false then
                    let g15 := addEdgeG (addEdgeG g1 pub vid) vid pub
                    setVertexDirectionG g15 vid (dirAt g15 pub)
                  else g1
            Except.ok { st with g := g2, topName := topName1, vars := vars1 }
def newVarScopeW (attrs : List (String × String)) (children : List XML)
    (st : LoaderState) : Except Err LoaderState :=
  match attrs.lookup "name" with
  | none => Except.error (Err.undefinedBehavior "varscope: missing name attribute")
  | some n =>
    match lookupVarVertex st n with
    | some _ => Except.ok st
    | none => newVarW attrs children st

def walkKidsWith (w : XML → LoaderState → Except Err LoaderState) :
    List XML → LoaderState → Except Err LoaderState
  | [], st => Except.ok st
  | x :: rest, st =>
    match w x st with
    | Except.error e => Except.error e
    | Except.ok st1 => walkKidsWith w rest st1

def isAssignKind (k : LogicKind) : Bool :=
  k == LogicKind.assign || k == LogicKind.assignAlias ||
  k == LogicKind.assignDly || k == LogicKind.assignW

def stmtTailW (w : XML → LoaderState → Except Err LoaderState)
    (children : List XML) (k : LogicKind) (cl0 : Option Nat)
    (st1 : LoaderState) : Except Err LoaderState :=
  if isAssignKind k then
    match children with
    | [r, l] =>
      match w r st1 with
      | Except.error e => Except.error e
      | Except.ok st2 =>
        match w l { st2 with isLValue := true } with
        | Except.error e => Except.error e
        | Except.ok st3 => Except.ok { st3 with isLValue := false, currentLogic := cl0 }
    | _ => Except.error (Err.assertFail "assign statement does not have 2 children")
  else
    match walkKidsWith w children st1 with
    | Except.error e => Except.error e
    | Except.ok st2 => Except.ok { st2 with currentLogic := cl0 }
def stmtBodyWith (w : XML → LoaderState → Except Err LoaderState)
    (attrs : List (String × String)) (children : List XML) (k : LogicKind)
    (st : LoaderState) : Except Err LoaderState :=
  if st.scopeDepth = 0 then Except.ok st
  else
    match attrs.lookup "loc" with
    | none => Except.error (Err.undefinedBehavior "statement: missing loc attribute")
    | some _ =>
      let vid := st.g.vertices.length
      let g1 : Graph := ⟨st.g.vertices ++ [⟨VKind.logicV k, "", Dir.noneDir, false⟩], st.g.edges⟩
      let g2 := match st.currentLogic with
        | some p => addEdgeG g1 p vid
        | none => g1
      stmtTailW w children k st.currentLogic { st with g := g2, currentLogic := some vid }

def newVarRefWith (w : XML → LoaderState → Except Err LoaderState)
    (attrs : List (String × String)) (children : List XML)
    (st : LoaderState) : Except Err LoaderState :=
  if st.scopeDepth = 0 then Except.ok st
  else
    match st.currentLogic with
    | none =>
      match attrs.lookup "name" with
      | none => Except.error (Err.undefinedBehavior "varref: missing name attribute")
      | some n => Except.error (Err.xmlError ("var " ++ n ++ " not under a logic block"))
    | some lv =>
      match attrs.lookup "name" with
      | none => Except.error (Err.undefinedBehavior "varref: missing name attribute")
      | some varName =>
        match lookupVarVertex st varName with
        | none => Except.error (Err.xmlError ("var " ++ varName ++ " does not have a VAR_SCOPE"))
        | some vv =>
          let g1 :=
            if st.isLValue then
              if st.isDelayedAssign then setVertexDstRegG (addEdgeG st.g lv vv) vv
              else addEdgeG st.g lv vv
            else addEdgeG st.g vv lv
          walkKidsWith w children { st with g := g1 }

def stmtKindOf (nm : String) : Option LogicKind :=
  if nm = "assign" then some LogicKind.assign
  else if nm = "assignw" then some LogicKind.assign
  else if nm = "contassign" then some LogicKind.assign
  else if nm = "assignalias" then some LogicKind.assignAlias
  else if nm = "always" then some LogicKind.always
  else if nm = "alwayspublic" then some LogicKind.always
  else if nm = "initial" then some LogicKind.initialK
  else if nm = "instance" then some LogicKind.instanceK
  else if nm = "sengate" then some LogicKind.senGate
  else if nm = "cfunc" then some LogicKind.cFunc
  else none

def walkF : Nat → XML → LoaderState → Except Err LoaderState
  | 0, _, _ => Except.error (Err.assertFail "XML recursion fuel exhausted")
  | fuel + 1, XML.mk nm attrs children, st =>
    if nm = "scope" ∨ nm = "topscope" then
      match walkKidsWith (fun x s => walkF fuel x s) children
          { st with scopeDepth := st.scopeDepth + 1 } with
      | Except.error e => Except.error e
      | Except.ok st1 => Except.ok { st1 with scopeDepth := st.scopeDepth }
    else if nm = "var" then newVarW attrs children st
    else if nm = "varscope" then newVarScopeW attrs children st
    else if nm = "varref" then
      match newVarRefWith (fun x s => walkF fuel x s) attrs children st with
      | Except.error e => Except.error e
      | Except.ok st1 => walkKidsWith (fun x s => walkF fuel x s) children st1
    else if nm = "assigndly" then
      match stmtBodyWith (fun x s => walkF fuel x s) attrs children LogicKind.assignDly
          { st with isDelayedAssign := true } with
      | Except.error e => Except.error e
      | Except.ok st1 => Except.ok { st1 with isDelayedAssign := false }
    else if nm = "senitem" then
      if st.currentLogic.isSome then walkKidsWith (fun x s => walkF fuel x s) children st
      else stmtBodyWith (fun x s => walkF fuel x s) attrs children LogicKind.senItem st
    else
      match stmtKindOf nm with
      | some k => stmtBodyWith (fun x s => walkF fuel x s) attrs children k st
      | none => walkKidsWith (fun x s => walkF fuel x s) children st

def XML.isNamed (x : XML) (tag : String) : Bool := x.nameOf == tag

def dropBeforeModule : List XML → List XML
  | [] => []
  | x :: xs => if x.nameOf = "module" then x :: xs else dropBeforeModule xs

def countTag (tag : String) (l : List XML) : Nat :=
  (l.filter (fun x => x.nameOf = tag)).length

def readXML (children : List XML) : Except Err Graph :=
  let suffix := dropBeforeModule children
  let mc := countTag "module" suffix
  let ic := countTag "iface" suffix
  if mc = 1 ∧ ic = 0 then
    match suffix with
    | m :: _ =>
      (match walkF (xmlSize m) m initLoaderState with
       | Except.error e => Except.error e
       | Except.ok st =>
         match m.attr "name" with
         | none => Except.error (Err.undefinedBehavior "module: missing name attribute")
         | some n =>
           if n = "TOP" then Except.ok st.g
           else Except.error (Err.xmlError "unexpected top module name"))
    | [] => Except.ok emptyGraph
  else Except.ok emptyGraph


/-- A netlist whose single module declares a port `i_clk` and an
internal variable `mod.i_clk` carrying `origName=\"i_clk\"`: the loader
stitches the two with a pair of variable-to-variable edges. -/
def cexC2Input : List XML :=
  [XML.mk "module" [("name", "TOP")]
    [XML.mk "var" [("name", "i_clk"), ("loc", "0,1,1,1,1"), ("dtype_id", "1"),
                   ("dir", "input")] [],
     XML.mk "var" [("name", "mod.i_clk"), ("loc", "0,2,1,2,1"), ("dtype_id", "1"),
                   ("origName", "i_clk")] []]]

/-- The graph the loader builds from `cexC2Input`. -/
def gStitch : Graph :=
  ⟨[⟨VKind.varV Role.varRole, "i_clk", Dir.input, false⟩,
    ⟨VKind.varV Role.varRole, "mod.i_clk", Dir.input, false⟩],
   [(0, 1), (1, 0)]⟩

/-- A netlist with an `iface` child placed before its single module: the
module-count loop of `readXML` starts at the first `module` child, so
this iface is never counted. -/
def cexC5Input : List XML :=
  [XML.mk "iface" [] [],
   XML.mk "module" [("name", "TOP")]
     [XML.mk "var" [("name", "x"), ("loc", "0,1,1,1,1"), ("dtype_id", "1")] []]]

/-- The (non-empty) graph the loader builds from `cexC5Input`. -/
def gC5 : Graph := ⟨[⟨VKind.varV Role.varRole, "x", Dir.noneDir, false⟩], []⟩

/-- A netlist whose module contains a `varref` at module level - outside
any scope, hence not under any logic vertex. -/
def cexC8Input : List XML :=
  [XML.mk "module" [("name", "TOP")] [XML.mk "varref" [("name", "x")] []]]

/-- The edge shape established by the loader: at least one logic
endpoint, or a port-stitching edge between two port variables. -/
def edgeOKb (g : Graph) (e : Nat × Nat) : Bool :=
  isLogicAt g e.1 || isLogicAt g e.2 || (isPortAt g e.1 && isPortAt g e.2)

/-- Invariant of the walker state: every edge satisfies `edgeOKb`, the
current logic vertex is a logic vertex, and every registered variable
name maps to a variable vertex. -/
def LoaderInv (st : LoaderState) : Prop :=
  (∀ e ∈ st.g.edges, edgeOKb st.g e = true) ∧
  (∀ l, st.currentLogic = some l → isLogicAt st.g l = true) ∧
  (∀ p ∈ st.vars, isVarAt st.g p.2 = true)

/-- Monotonicity of vertex classifications along the walk: the walker
only appends vertices, turns variable roles into register roles, and
sets port directions, so logic-ness, variable-ness and port-ness of an
existing id never disappear. -/
def GraphLe (g g' : Graph) : Prop :=
  (∀ i, isLogicAt g i = true → isLogicAt g' i = true) ∧
  (∀ i, isVarAt g i = true → isVarAt g' i = true) ∧
  (∀ i, isPortAt g i = true → isPortAt g' i = true)

/-- The port directions (`input`, `output`, `inout`). -/
def isPortDir (d : Dir) : Prop := d = Dir.input ∨ d = Dir.output ∨ d = Dir.inout

/-! ### Invariants of the register split -/

/-- Invariant carried through the pass over the original vertices of
`g0`: original vertices are unchanged, every appended vertex is a source
register twin, every edge target is an original vertex, and every
already processed register has no out edges. -/
def SplitInv (g0 : Graph) (done : List Nat) (g : Graph) : Prop :=
  (∀ i, i < g0.vertices.length → vertexAt g i = vertexAt g0 i) ∧
  (∀ j v, g0.vertices.length ≤ j → vertexAt g j = some v →
    v.vtype = VKind.varV Role.srcReg) ∧
  (∀ e ∈ g.edges, e.2 < g0.vertices.length) ∧
  (∀ v ∈ done, isRegAt g0 v = true → ∀ e ∈ g.edges, e.1 ≠ v)

theorem splitMoveEdges_vertices (v t : Nat) (adj : List Nat) (h : Graph) :
    (splitMoveEdges v t adj h).vertices = h.vertices := by
  induction adj generalizing h with
  | nil => rfl
  | cons a adj ih => exact ih (addEdgeG (removeEdgeAll h v a) t a)

theorem splitMoveEdges_edges_prop (v t : Nat) (P : Nat × Nat → Prop)
    (adj : List Nat) (h : Graph)
    (hP : ∀ e ∈ h.edges, P e) (hAdd : ∀ a ∈ adj, P (t, a)) :
    ∀ e ∈ (splitMoveEdges v t adj h).edges, P e := by
  induction adj generalizing h with
  | nil => exact hP
  | cons a adj ih =>
      refine ih (addEdgeG (removeEdgeAll h v a) t a) ?_ ?_
      · intro e he
        rcases List.mem_append.mp he with he | he
        · exact hP e (List.mem_of_mem_filter he)
        · rcases List.mem_singleton.mp he with rfl
          exact hAdd a (List.mem_cons_self a adj)
      · intro b hb
        exact hAdd b (List.mem_cons_of_mem a hb)

theorem splitMoveEdges_no_src (v t : Nat) (hne : t ≠ v) :
    ∀ (adj : List Nat) (h : Graph),
      (∀ e ∈ h.edges, e.1 = v → e.2 ∈ adj) →
      ∀ e ∈ (splitMoveEdges v t adj h).edges, e.1 ≠ v := by
  intro adj
  induction adj with
  | nil =>
      intro h hpre e he hv
      exact absurd (hpre e he hv) (List.not_mem_nil e.2)
  | cons a adj ih =>
      intro h hpre e he
      refine ih (addEdgeG (removeEdgeAll h v a) t a) ?_ e he
      intro e' he' hv'
      rcases List.mem_append.mp he' with he' | he'
      · have hmem := List.mem_of_mem_filter he'
        have hfil := List.of_mem_filter he'
        have hne' : ¬(e' = (v, a)) := by
          simpa using hfil
        have h2 : e'.2 ∈ a :: adj := hpre e' hmem hv'
        rcases List.mem_cons.mp h2 with h2 | h2
        · exfalso
          apply hne'
          cases e' with
          | mk x y => simp only [Prod.mk.injEq]; exact ⟨hv', h2⟩
        · exact h2
      · rcases List.mem_singleton.mp he' with rfl
        exact absurd hv' hne

theorem splitInv_len_le {g0 : Graph} {done : List Nat} {g : Graph}
    (h : SplitInv g0 done g) : g0.vertices.length ≤ g.vertices.length := by
  by_contra hlt
  push_neg at hlt
  have h1 := h.1 g.vertices.length hlt
  have h2 : vertexAt g g.vertices.length = none := by
    simp [vertexAt]
  have h3 : vertexAt g0 g.vertices.length ≠ none := by
    simp [vertexAt, List.getElem?_eq_none_iff]
    omega
  exact h3 (h1 ▸ h2)

theorem splitOne_inv (g0 : Graph) (done : List Nat) (g : Graph) (v : Nat)
    (hv : v < g0.vertices.length)
    (h : SplitInv g0 done g) : SplitInv g0 (done ++ [v]) (splitOne g v) := by
  obtain ⟨h1, h2, h3, h4⟩ := h
  have hlen := splitInv_len_le ⟨h1, h2, h3, h4⟩
  by_cases hreg : isRegAt g v = true
  · simp only [splitOne, hreg, if_true]
    set adjacent := succsG g v with hadj
    set twinId := g.vertices.length with htwin
    set g1 : Graph :=
      { g with vertices := g.vertices ++ [setSrcRegV ((vertexAt g v).getD default)] } with hg1
    have hg1v : g1.vertices = g.vertices ++ [setSrcRegV ((vertexAt g v).getD default)] := rfl
    have hg1e : g1.edges = g.edges := rfl
    have hverts : (splitMoveEdges v twinId adjacent g1).vertices = g1.vertices :=
      splitMoveEdges_vertices _ _ _ _
    have hadjlt : ∀ a ∈ adjacent, a < g0.vertices.length := by
      intro a ha
      rw [hadj] at ha
      simp only [succsG, List.mem_map] at ha
      obtain ⟨e, he, rfl⟩ := ha
      exact h3 e (List.mem_of_mem_filter he)
    refine ⟨?_, ?_, ?_, ?_⟩
    · intro i hi
      have : vertexAt (splitMoveEdges v twinId adjacent g1) i = vertexAt g1 i := by
        simp [vertexAt, hverts]
      rw [this]
      have : vertexAt g1 i = vertexAt g i := by
        simp only [vertexAt, hg1v]
        exact List.getElem?_append_left (lt_of_lt_of_le hi hlen)
      rw [this]
      exact h1 i hi
    · intro j w hj hw
      rw [show vertexAt (splitMoveEdges v twinId adjacent g1) j = vertexAt g1 j by
        simp [vertexAt, hverts]] at hw
      simp only [vertexAt, hg1v] at hw
      by_cases hjl : j < g.vertices.length
      · rw [List.getElem?_append_left hjl] at hw
        exact h2 j w hj hw
      · push_neg at hjl
        by_cases hje : j = g.vertices.length
        · subst hje
          rw [List.getElem?_concat_length] at hw
          cases hw
          rfl
        · have : g.vertices.length + 1 ≤ j := by omega
          rw [List.getElem?_eq_none_iff.mpr (by simp; omega)] at hw
          cases hw
    · refine splitMoveEdges_edges_prop v twinId _ adjacent g1 ?_ ?_
      · intro e he
        rw [hg1e] at he
        exact h3 e he
      · intro a ha
        exact hadjlt a ha
    · intro w hw hwreg
      rcases List.mem_append.mp hw with hw | hw
      · -- already processed register: no new edge has source w
        refine splitMoveEdges_edges_prop v twinId (fun e => e.1 ≠ w) adjacent g1 ?_ ?_
        · intro e he
          rw [hg1e] at he
          exact h4 w hw hwreg e he
        · intro a _
          simp only
          intro hcontra
          have hwlt : w < g0.vertices.length := by
            by_contra hge
            push_neg at hge
            simp only [isRegAt, vertexAt] at hwreg
            rw [List.getElem?_eq_none_iff.mpr (by omega)] at hwreg
            simp at hwreg
          omega
      · have hwv : w = v := List.mem_singleton.mp hw
        subst hwv
        refine splitMoveEdges_no_src _ twinId ?_ adjacent g1 ?_
        · omega
        · intro e he hv'
          rw [hg1e] at he
          rw [hadj]
          simp only [succsG, List.mem_map]
          refine ⟨e, ?_, rfl⟩
          simp only [List.mem_filter]
          exact ⟨he, by simp [hv']⟩
  · simp only [splitOne, hreg, if_false]
    refine ⟨h1, h2, h3, ?_⟩
    intro w hw hwreg
    rcases List.mem_append.mp hw with hw | hw
    · exact h4 w hw hwreg
    · rcases List.mem_singleton.mp hw with rfl
      exfalso
      apply hreg
      have : isRegAt g w = isRegAt g0 w := by
        simp only [isRegAt]
        rw [h1 w hv]
      rw [this]
      exact hwreg

theorem splitFold_inv (g0 : Graph) :
    ∀ (l : List Nat) (done : List Nat) (g : Graph),
      (∀ w ∈ l, w < g0.vertices.length) →
      SplitInv g0 done g →
      SplitInv g0 (done ++ l) (l.foldl splitOne g) := by
  intro l
  induction l with
  | nil => intro done g _ h; simpa using h
  | cons x l ih =>
      intro done g hl h
      have h' := splitOne_inv g0 done g x (hl x (List.mem_cons_self x l)) h
      have := ih (done ++ [x]) (splitOne g x)
        (fun w hw => hl w (List.mem_cons_of_mem x hw)) h'
      simpa using this

/-- C1: after `Graph::splitRegVertices` has run on a loader-produced
graph (no source registers yet, all edge targets valid vertex ids),
every source register vertex has in-degree zero and every destination
register vertex has out-degree zero. -/
theorem claim_C1_split_register_invariants (g : Graph)
    (hsrc : ∀ v ∈ g.vertices, v.vtype ≠ VKind.varV Role.srcReg)
    (hbound : ∀ e ∈ g.edges, e.2 < g.vertices.length) :
    ∀ i < (splitRegVertices g).vertices.length,
      (isSrcRegAt (splitRegVertices g) i = true → inDegree (splitRegVertices g) i = 0) ∧
      (isDstRegAt (splitRegVertices g) i = true → outDegree (splitRegVertices g) i = 0) := by
  have hinit : SplitInv g [] g := by
    refine ⟨fun i _ => rfl, ?_, hbound, by simp⟩
    intro j v hj hv
    simp only [vertexAt] at hv
    rw [List.getElem?_eq_none_iff.mpr hj] at hv
    cases hv
  have hinv : SplitInv g ([] ++ List.range g.vertices.length) (splitRegVertices g) := by
    exact splitFold_inv g (List.range g.vertices.length) [] g
      (fun w hw => List.mem_range.mp hw) hinit
  rw [List.nil_append] at hinv
  obtain ⟨h1, h2, h3, h4⟩ := hinv
  intro i _
  constructor
  · intro hsrcI
    -- every edge targets an original vertex; source registers are twins
    -- with ids at or beyond the original range, except that originals
    -- are never source registers at all
    have hige : g.vertices.length ≤ i := by
      by_contra hlt
      push_neg at hlt
      simp only [isSrcRegAt] at hsrcI
      rw [h1 i hlt] at hsrcI
      match hv : vertexAt g i with
      | none => rw [hv] at hsrcI; simp at hsrcI
      | some v =>
          rw [hv] at hsrcI
          simp only [beq_iff_eq] at hsrcI
          exact hsrc v (List.getElem?_mem hv) hsrcI
    simp only [inDegree, List.length_eq_zero]
    rw [List.filter_eq_nil_iff]
    intro e he
    simp only [beq_iff_eq]
    intro hcontra
    have := h3 e he
    omega
  · intro hdstI
    have hilt : i < g.vertices.length := by
      by_contra hge
      push_neg at hge
      simp only [isDstRegAt, isRegAt] at hdstI
      match hv : vertexAt (splitRegVertices g) i with
      | none => rw [hv] at hdstI; simp at hdstI
      | some v =>
          rw [hv] at hdstI
          have := h2 i v hge hv
          simp only [isRegV, this] at hdstI
          simp at hdstI
    have hregOrig : isRegAt g i = true := by
      simp only [isDstRegAt, isRegAt] at hdstI
      simp only [isRegAt]
      rw [← h1 i hilt]
      exact hdstI
    simp only [outDegree, List.length_eq_zero]
    rw [List.filter_eq_nil_iff]
    intro e he
    simp only [beq_iff_eq]
    exact h4 i (List.mem_range.mpr hilt) hregOrig e he

/-- C1 witness: the register split applied to a small register chain
satisfies both degree invariants. -/
theorem claim_C1_witness :
    (∀ v ∈ gRegChain.vertices, v.vtype ≠ VKind.varV Role.srcReg) ∧
    (∀ e ∈ gRegChain.edges, e.2 < gRegChain.vertices.length) ∧
    (∀ i < (splitRegVertices gRegChain).vertices.length,
      (isSrcRegAt (splitRegVertices gRegChain) i = true →
        inDegree (splitRegVertices gRegChain) i = 0) ∧
      (isDstRegAt (splitRegVertices gRegChain) i = true →
        outDegree (splitRegVertices gRegChain) i = 0)) :=
  ⟨by decide, by decide,
    claim_C1_split_register_invariants gRegChain (by decide) (by decide)⟩

/-! ### DFS invariants -/

theorem foldl_preserve {σ α : Type} (P : σ → Prop) (f : σ → α → σ) :
    ∀ (l : List α) (s : σ), P s → (∀ s' a, a ∈ l → P s' → P (f s' a)) →
      P (l.foldl f s) := by
  intro l
  induction l with
  | nil => intro s h _; exact h
  | cons a l ih =>
      intro s h hstep
      exact ih (f s a) (hstep s a (List.mem_cons_self a l) h)
        (fun s' b hb => hstep s' b (List.mem_cons_of_mem a hb))

theorem pmLookup_append (pm : List (Nat × Nat)) (q : Nat × Nat) (c : Nat) :
    pmLookup (pm ++ [q]) c =
      pmLookup pm c ++ (if q.1 = c then [q.2] else []) := by
  simp only [pmLookup, List.filter_append, List.map_append]
  congr 1
  by_cases h : q.1 = c
  · simp [List.filter_cons, h]
  · have hb : (q.1 == c) = false := beq_eq_false_iff_ne.mpr h
    simp [List.filter_cons, hb, h]

theorem mem_pm_of_mem_pmLookup {pm : List (Nat × Nat)} {f u : Nat}
    (h : u ∈ pmLookup pm f) : (f, u) ∈ pm := by
  simp only [pmLookup, List.mem_map] at h
  obtain ⟨e, he, rfl⟩ := h
  have h1 := List.of_mem_filter he
  have h2 := List.mem_of_mem_filter he
  simp only [beq_iff_eq] at h1
  have : e = (f, e.2) := by
    cases e; simp_all
  rw [this] at h2
  exact h2

theorem pmLookup_eq_nil {pm : List (Nat × Nat)} {visited : List Nat} {v : Nat}
    (hmem : ∀ c p, (c, p) ∈ pm → c ∈ visited) (hv : v ∉ visited) :
    pmLookup pm v = [] := by
  simp only [pmLookup, List.map_eq_nil]
  rw [List.filter_eq_nil_iff]
  intro e he
  simp only [beq_iff_eq]
  intro hcontra
  apply hv
  have : e = (v, e.2) := by cases e; simp_all
  rw [this] at he
  exact hmem v e.2 he

/-- Pushing a tree edge to an undiscovered vertex and marking it
discovered preserves the tree-mode invariant. -/
theorem push_tree_inv {g : Graph} {avoid : List Nat} {st : DfsState} {v u : Nat}
    (hInv : DfsInv g avoid false st) (hu : u ∈ st.visited) (hv : v ∉ st.visited)
    (hedge : v ∈ filteredSuccs g avoid u) :
    DfsInv g avoid false
      ⟨st.visited ++ [v], st.parent ++ [(v, u)]⟩ := by
  obtain ⟨h1, h2, h3⟩ := hInv
  obtain ⟨h3a, h3b⟩ := h3 rfl
  refine ⟨?_, ?_, ?_⟩
  · rw [List.nodup_append]
    exact ⟨h1, List.nodup_singleton v, by
      intro a ha hb
      rcases List.mem_singleton.mp hb with rfl
      exact hv ha⟩
  · intro c p hcp
    rcases List.mem_append.mp hcp with hcp | hcp
    · exact h2 c p hcp
    · rcases List.mem_singleton.mp hcp with h
      cases h
      exact hedge
  · intro _
    constructor
    · intro c p hcp
      rcases List.mem_append.mp hcp with hcp | hcp
      · obtain ⟨hp, hc, hlt⟩ := h3a c p hcp
        refine ⟨List.mem_append_left _ hp, List.mem_append_left _ hc, ?_⟩
        rw [List.indexOf_append_of_mem hp, List.indexOf_append_of_mem hc]
        exact hlt
      · rcases List.mem_singleton.mp hcp with h
        cases h
        refine ⟨List.mem_append_left _ hu, List.mem_append_right _ (List.mem_singleton_self v), ?_⟩
        rw [List.indexOf_append_of_mem hu, List.indexOf_append_of_not_mem hv]
        simp only [List.indexOf_cons_self, Nat.add_zero]
        exact lt_of_lt_of_le (List.indexOf_lt_length.mpr hu) (le_refl _)
    · intro c
      rw [pmLookup_append]
      by_cases hc : c = v
      · subst hc
        have : pmLookup st.parent c = [] :=
          pmLookup_eq_nil (fun c' p' h' => (h3a c' p' h').2.1) hv
        simp [this]
      · simp only [show ((v, u).1 = c) = False by simp [Ne.symm, hc], if_false]
        simpa using h3b c

/-- Pushing an examined edge in all mode preserves the invariant. -/
theorem push_all_inv {g : Graph} {avoid : List Nat} {st : DfsState} {v u : Nat}
    (hInv : DfsInv g avoid true st) (hedge : v ∈ filteredSuccs g avoid u) :
    DfsInv g avoid true (pushParent st v u) := by
  obtain ⟨h1, h2, _⟩ := hInv
  refine ⟨h1, ?_, by intro h; cases h⟩
  intro c p hcp
  rcases List.mem_append.mp hcp with hcp | hcp
  · exact h2 c p hcp
  · rcases List.mem_singleton.mp hcp with h
    cases h
    exact hedge

/-- Marking a new vertex discovered (without touching the parent map)
preserves the invariant in either mode. -/
theorem mark_inv {g : Graph} {avoid : List Nat} {allMode : Bool} {st : DfsState} {v : Nat}
    (hInv : DfsInv g avoid allMode st) (hv : v ∉ st.visited) :
    DfsInv g avoid allMode ⟨st.visited ++ [v], st.parent⟩ := by
  obtain ⟨h1, h2, h3⟩ := hInv
  refine ⟨?_, h2, ?_⟩
  · rw [List.nodup_append]
    exact ⟨h1, List.nodup_singleton v, by
      intro a ha hb
      rcases List.mem_singleton.mp hb with rfl
      exact hv ha⟩
  · intro hm
    obtain ⟨h3a, h3b⟩ := h3 hm
    refine ⟨?_, h3b⟩
    intro c p hcp
    obtain ⟨hp, hc, hlt⟩ := h3a c p hcp
    refine ⟨List.mem_append_left _ hp, List.mem_append_left _ hc, ?_⟩
    rw [List.indexOf_append_of_mem hp, List.indexOf_append_of_mem hc]
    exact hlt

theorem dfsFold_inv_aux (g : Graph) (avoid : List Nat) (allMode : Bool) (fuel : Nat)
    (hvisit : ∀ u st, DfsInv g avoid allMode st → u ∈ st.visited →
      DfsInv g avoid allMode (dfsVisit g avoid allMode fuel u st) ∧
      ∃ t, (dfsVisit g avoid allMode fuel u st).visited = st.visited ++ t) :
    ∀ (l : List Nat) (u : Nat) (st : DfsState),
      DfsInv g avoid allMode st → u ∈ st.visited →
      (∀ x ∈ l, x ∈ filteredSuccs g avoid u) →
      DfsInv g avoid allMode
        (l.foldl
          (fun st' v =>
            let st1 := cond allMode (pushParent st' v u) st'
            if st1.visited.contains v then st1
            else
              dfsVisit g avoid allMode fuel v
                (cond allMode ⟨st1.visited ++ [v], st1.parent⟩
                              ⟨st1.visited ++ [v], st1.parent ++ [(v, u)]⟩))
          st) ∧
      ∃ t, (l.foldl
          (fun st' v =>
            let st1 := cond allMode (pushParent st' v u) st'
            if st1.visited.contains v then st1
            else
              dfsVisit g avoid allMode fuel v
                (cond allMode ⟨st1.visited ++ [v], st1.parent⟩
                              ⟨st1.visited ++ [v], st1.parent ++ [(v, u)]⟩))
          st).visited = st.visited ++ t := by
  intro l
  induction l with
  | nil =>
      intro u st hInv hu _
      refine ⟨hInv, [], ?_⟩
      simp
  | cons v vs ih =>
      intro u st hInv hu hsub
      rw [List.foldl_cons]
      have hedge : v ∈ filteredSuccs g avoid u := hsub v (List.mem_cons_self v vs)
      have hsub' : ∀ x ∈ vs, x ∈ filteredSuccs g avoid u :=
        fun x hx => hsub x (List.mem_cons_of_mem v hx)
      cases allMode with
      | true =>
          simp only [cond_true] at ih ⊢
          have hInv1 : DfsInv g avoid true (pushParent st v u) := push_all_inv hInv hedge
          have hu1 : u ∈ (pushParent st v u).visited := hu
          by_cases hvv : (pushParent st v u).visited.contains v = true
          · rw [if_pos hvv]
            exact ih u (pushParent st v u) hInv1 hu1 hsub'
          · rw [if_neg hvv]
            have hvnot : v ∉ (pushParent st v u).visited := by
              intro hmem
              have hc : (pushParent st v u).visited.contains v = true := by
                simpa using hmem
              exact hvv hc
            have hInv3 : DfsInv g avoid true
                ⟨(pushParent st v u).visited ++ [v], (pushParent st v u).parent⟩ :=
              mark_inv hInv1 hvnot
            have hv3 : v ∈ ((⟨(pushParent st v u).visited ++ [v],
                (pushParent st v u).parent⟩ : DfsState)).visited :=
              List.mem_append_right _ (List.mem_singleton_self v)
            obtain ⟨hInv4, t4, ht4⟩ := hvisit v _ hInv3 hv3
            have hu4 : u ∈ (dfsVisit g avoid true fuel v
                ⟨(pushParent st v u).visited ++ [v], (pushParent st v u).parent⟩).visited := by
              rw [ht4]
              exact List.mem_append_left _ (List.mem_append_left _ hu)
            obtain ⟨hInv5, t5, ht5⟩ := ih u _ hInv4 hu4 hsub'
            refine ⟨hInv5, [v] ++ t4 ++ t5, ?_⟩
            rw [ht5, ht4]
            simp [pushParent]
      | false =>
          simp only [cond_false] at ih ⊢
          by_cases hvv : st.visited.contains v = true
          · rw [if_pos hvv]
            exact ih u st hInv hu hsub'
          · rw [if_neg hvv]
            have hvnot : v ∉ st.visited := by
              intro hmem
              have hc : st.visited.contains v = true := by
                simpa using hmem
              exact hvv hc
            have hInv3 : DfsInv g avoid false
                ⟨st.visited ++ [v], st.parent ++ [(v, u)]⟩ :=
              push_tree_inv hInv hu hvnot hedge
            have hv3 : v ∈ ((⟨st.visited ++ [v], st.parent ++ [(v, u)]⟩ : DfsState)).visited :=
              List.mem_append_right _ (List.mem_singleton_self v)
            obtain ⟨hInv4, t4, ht4⟩ := hvisit v _ hInv3 hv3
            have hu4 : u ∈ (dfsVisit g avoid false fuel v
                ⟨st.visited ++ [v], st.parent ++ [(v, u)]⟩).visited := by
              rw [ht4]
              exact List.mem_append_left _ (List.mem_append_left _ hu)
            obtain ⟨hInv5, t5, ht5⟩ := ih u _ hInv4 hu4 hsub'
            refine ⟨hInv5, [v] ++ t4 ++ t5, ?_⟩
            rw [ht5, ht4]
            simp

theorem dfsVisit_inv (g : Graph) (avoid : List Nat) (allMode : Bool) :
    ∀ (fuel : Nat) (u : Nat) (st : DfsState),
      DfsInv g avoid allMode st → u ∈ st.visited →
      DfsInv g avoid allMode (dfsVisit g avoid allMode fuel u st) ∧
      ∃ t, (dfsVisit g avoid allMode fuel u st).visited = st.visited ++ t := by
  intro fuel
  induction fuel with
  | zero =>
      intro u st hInv _
      rw [dfsVisit]
      refine ⟨hInv, [], ?_⟩
      simp
  | succ fuel ih =>
      intro u st hInv hu
      rw [dfsVisit]
      exact dfsFold_inv_aux g avoid allMode fuel ih (filteredSuccs g avoid u) u st
        hInv hu (fun x hx => hx)

theorem depthFirstSearch_inv (g : Graph) (avoid : List Nat) (allMode : Bool) (root : Nat) :
    DfsInv g avoid allMode (depthFirstSearch g avoid allMode root) := by
  rw [depthFirstSearch]
  have hinit : DfsInv g avoid allMode ⟨[root], []⟩ := by
    refine ⟨List.nodup_singleton root, by simp, ?_⟩
    intro _
    exact ⟨by simp, by intro c; simp [pmLookup]⟩
  have hst0 := (dfsVisit_inv g avoid allMode (g.edges.length + 2) root ⟨[root], []⟩
    hinit (List.mem_singleton_self root)).1
  refine foldl_preserve (DfsInv g avoid allMode) _ _ _ hst0 ?_
  intro st v _ hInv
  by_cases hskip : avoid.contains v || st.visited.contains v
  · simp only [hskip, if_true]
    exact hInv
  · simp only [hskip, if_false]
    have hvnot : v ∉ st.visited := by
      intro hmem
      simp at hskip
      exact hskip.2 hmem
    have hmarked : DfsInv g avoid allMode ⟨st.visited ++ [v], st.parent⟩ :=
      mark_inv hInv hvnot
    exact (dfsVisit_inv g avoid allMode (g.edges.length + 2) v _ hmarked
      (List.mem_append_right _ (List.mem_singleton_self v))).1

/-! ### Path reconstruction under the DFS invariants -/

/-- Under a tree-mode parent map, climbing the parent map always
terminates and never trips an assertion: each climb step strictly
decreases the discovery index. -/
theorem determinePath_isSome {pm : List (Nat × Nat)} {visited : List Nat}
    (hord : ∀ c p, (c, p) ∈ pm → p ∈ visited ∧ c ∈ visited ∧
      visited.indexOf p < visited.indexOf c)
    (hcnt : ∀ c, (pmLookup pm c).length ≤ 1) :
    ∀ (fuel : Nat) (s f : Nat) (path : List Nat),
      (f ∈ visited → visited.indexOf f + 2 ≤ fuel) →
      (f ∉ visited → 1 ≤ fuel) →
      (∀ x ∈ path, x ∈ visited ∧ visited.indexOf f < visited.indexOf x) →
      (determinePath pm fuel path s f).isSome = true := by
  intro fuel
  induction fuel with
  | zero =>
      intro s f path h1 h2 _
      by_cases hf : f ∈ visited
      · have := h1 hf; omega
      · have := h2 hf; omega
  | succ fuel ih =>
      intro s f path h1 h2 hpath
      rw [determinePath]
      by_cases hfs : f = s
      · rw [if_pos hfs]; rfl
      · rw [if_neg hfs]
        rcases hlk : pmLookup pm f with _ | ⟨next, rest⟩
        · rfl
        · rcases rest with _ | ⟨y, rest2⟩
          · have hmempm : (f, next) ∈ pm :=
              mem_pm_of_mem_pmLookup (by rw [hlk]; exact List.mem_singleton_self next)
            obtain ⟨hnextv, hfv, hlt⟩ := hord f next hmempm
            have hfuel := h1 hfv
            have hcont : ¬((path ++ [f]).contains next = true) := by
              intro hc
              have hmem : next ∈ path ++ [f] := by simpa using hc
              rcases List.mem_append.mp hmem with hm | hm
              · have := (hpath next hm).2
                omega
              · rcases List.mem_singleton.mp hm with rfl
                omega
            show (if (path ++ [f]).contains next = true then none
                  else determinePath pm fuel (path ++ [f]) s next).isSome = true
            rw [if_neg hcont]
            refine ih s next (path ++ [f]) ?_ ?_ ?_
            · intro _; omega
            · intro hn; exact absurd hnextv hn
            · intro x hx
              rcases List.mem_append.mp hx with hm | hm
              · obtain ⟨hxv, hxlt⟩ := hpath x hm
                exact ⟨hxv, by omega⟩
              · rcases List.mem_singleton.mp hm with rfl
                exact ⟨hfv, hlt⟩
          · exfalso
            have := hcnt f
            rw [hlk] at this
            simp at this

/-- Every parent-map entry is a real visible edge, so a successful climb
witnesses a directed path in the filtered graph. -/
theorem determinePath_reach (g : Graph) (avoid : List Nat) {pm : List (Nat × Nat)}
    (hreal : ∀ c p, (c, p) ∈ pm → c ∈ filteredSuccs g avoid p) :
    ∀ (fuel : Nat) (path : List Nat) (s f : Nat) (l : List Nat),
      determinePath pm fuel path s f = some l → l ≠ [] → ReachableF g avoid s f := by
  intro fuel
  induction fuel with
  | zero => intro path s f l h; cases h
  | succ fuel ih =>
      intro path s f l h hne
      rw [determinePath] at h
      by_cases hfs : f = s
      · subst hfs
        exact ReachableF.refl f
      · rw [if_neg hfs] at h
        rcases hlk : pmLookup pm f with _ | ⟨next, rest⟩
        · rw [hlk] at h
          cases h
          exact absurd rfl hne
        · rcases rest with _ | ⟨y, rest2⟩
          · rw [hlk] at h
            have h' : (if (path ++ [f]).contains next = true then none
                else determinePath pm fuel (path ++ [f]) s next) = some l := h
            by_cases hc : (path ++ [f]).contains next = true
            · rw [if_pos hc] at h'; cases h'
            · rw [if_neg hc] at h'
              have hr := ih (path ++ [f]) s next l h' hne
              have hmem : (f, next) ∈ pm :=
                mem_pm_of_mem_pmLookup (by rw [hlk]; exact List.mem_singleton_self next)
              exact ReachableF.step hr (hreal f next hmem)
          · rw [hlk] at h
            cases h

/-- Every path produced by `determineAllPaths` witnesses a directed path
in the filtered graph. -/
theorem determineAllPaths_reach (g : Graph) (avoid : List Nat) {pm : List (Nat × Nat)}
    (hreal : ∀ c p, (c, p) ∈ pm → c ∈ filteredSuccs g avoid p) :
    ∀ (fuel : Nat) (path : List Nat) (s f : Nat),
      determineAllPaths pm fuel path s f ≠ [] → ReachableF g avoid s f := by
  intro fuel
  induction fuel with
  | zero =>
      intro path s f h
      rw [determineAllPaths] at h
      exact absurd rfl h
  | succ fuel ih =>
      have hlist : ∀ (us : List Nat) (path : List Nat) (s : Nat),
          dapList pm fuel path s us ≠ [] → ∃ u ∈ us, ReachableF g avoid s u := by
        intro us
        induction us with
        | nil =>
            intro path s h
            rw [dapList] at h
            exact absurd rfl h
        | cons u us ihus =>
            intro path s h
            rw [dapList] at h
            by_cases hA : (if path.contains u then [] else determineAllPaths pm fuel path s u) = []
            · rw [hA, List.nil_append] at h
              obtain ⟨w, hw, hr⟩ := ihus path s h
              exact ⟨w, List.mem_cons_of_mem u hw, hr⟩
            · have hdap : determineAllPaths pm fuel path s u ≠ [] := by
                by_cases hc : path.contains u = true
                · rw [if_pos hc] at hA
                  exact absurd rfl hA
                · rw [if_neg hc] at hA
                  exact hA
              exact ⟨u, List.mem_cons_self u us, ih path s u hdap⟩
      intro path s f h
      rw [determineAllPaths] at h
      by_cases hfs : f = s
      · subst hfs
        exact ReachableF.refl f
      · rw [if_neg hfs] at h
        obtain ⟨u, hu, hr⟩ := hlist (pmLookup pm f) (path ++ [f]) s h
        exact ReachableF.step hr (hreal f u (mem_pm_of_mem_pmLookup hu))

/-! ### Claims about the query engine -/

/-- C9: in tree-mode DFS (the mode used by any-path, fan-in and
fan-out), the parent map assigns at most one parent to every vertex, and
`determinePath` (with the fuel supplied by every caller) always returns
a result for every start/finish pair: its two assertions never fail and
the climb terminates. -/
theorem claim_C9_tree_dfs_unique_parent (g : Graph) (avoid : List Nat) (root : Nat) :
    (∀ v, (pmLookup (depthFirstSearch g avoid false root).parent v).length ≤ 1) ∧
    (∀ s f, (determinePath (depthFirstSearch g avoid false root).parent
        ((depthFirstSearch g avoid false root).visited.length + 1) [] s f).isSome = true) := by
  obtain ⟨hnd, hreal, htree⟩ := depthFirstSearch_inv g avoid false root
  obtain ⟨hord, hcnt⟩ := htree rfl
  refine ⟨hcnt, ?_⟩
  intro s f
  refine determinePath_isSome hord hcnt _ s f [] ?_ ?_ (by simp)
  · intro hf
    have := List.indexOf_lt_length.mpr hf
    omega
  · intro _
    omega

/-- C4: for resolved waypoints with no directed path between them in the
avoid-filtered graph, `getAnyPointToPoint` returns the empty sequence,
`getAllPointToPoint` returns the empty list, and `pathExists` is false -
none of the three fails. -/
theorem claim_C4_no_path_empty_results (g : Graph) (avoid : List Nat) (s f : Nat)
    (h : ¬ ReachableF g avoid s f) :
    getAnyPointToPoint g [s, f] avoid = some [] ∧
    getAllPointToPoint g [s, f] avoid = some [] ∧
    pathExistsIDs g [s, f] avoid = some false := by
  obtain ⟨hnd, hreal, htree⟩ := depthFirstSearch_inv g avoid false s
  obtain ⟨hord, hcnt⟩ := htree rfl
  have hsome : (determinePath (depthFirstSearch g avoid false s).parent
      ((depthFirstSearch g avoid false s).visited.length + 1) [] s f).isSome = true := by
    refine determinePath_isSome hord hcnt _ s f [] ?_ ?_ (by simp)
    · intro hf
      have := List.indexOf_lt_length.mpr hf
      omega
    · intro _
      omega
  obtain ⟨l, hl⟩ := Option.isSome_iff_exists.mp hsome
  have hle : l = [] := by
    by_contra hne
    exact h (determinePath_reach g avoid hreal _ _ s f l hl hne)
  subst hle
  have hany : getAnyPointToPoint g [s, f] avoid = some [] := by
    simp only [getAnyPointToPoint, anyStages, hl]
  refine ⟨hany, ?_, ?_⟩
  · obtain ⟨hnd2, hreal2, _⟩ := depthFirstSearch_inv g avoid true s
    have hpaths : determineAllPaths (depthFirstSearch g avoid true s).parent
        ((depthFirstSearch g avoid true s).parent.length + 2) [] s f = [] := by
      by_contra hne
      exact h (determineAllPaths_reach g avoid hreal2 _ [] s f hne)
    simp only [getAllPointToPoint, allStages, hpaths, List.isEmpty_nil, if_true]
  · simp only [pathExistsIDs, hany]
    rfl

/-- C4 witness: two isolated vertices have no connecting path, and all
three queries report empty without failing. -/
theorem claim_C4_witness :
    (¬ ReachableF gTwoIsolated [] 0 1) ∧
    (getAnyPointToPoint gTwoIsolated [0, 1] [] = some [] ∧
     getAllPointToPoint gTwoIsolated [0, 1] [] = some [] ∧
     pathExistsIDs gTwoIsolated [0, 1] [] = some false) := by
  have hnr : ¬ ReachableF gTwoIsolated [] 0 1 := by
    intro h
    cases h with
    | step h1 h2 => simp [filteredSuccs, gTwoIsolated] at h2
  exact ⟨hnr, claim_C4_no_path_empty_results gTwoIsolated [] 0 1 hnr⟩

/-- The fold of the fan-in collector equals the fold of the generalised
fan-out collector with every collected path reversed. -/
theorem fanInGen_fold (P : Nat → Bool) (dp : Nat → Option (List Nat)) :
    ∀ (l : List Nat) (acc : Option (List (List Nat))),
      l.foldl
        (fun a v =>
          match a with
          | none => none
          | some paths =>
            if P v then
              match dp v with
              | none => none
              | some p => some (if p.isEmpty then paths else paths ++ [p])
            else some paths)
        (acc.map (List.map List.reverse)) =
      (l.foldl
        (fun a v =>
          match a with
          | none => none
          | some paths =>
            if P v then
              match dp v with
              | none => none
              | some p => some (if p.isEmpty then paths else paths ++ [p.reverse])
            else some paths)
        acc).map (List.map List.reverse) := by
  intro l
  induction l with
  | nil => intro acc; rfl
  | cons v l ih =>
      intro acc
      rw [List.foldl_cons, List.foldl_cons]
      have hstep :
          (match acc.map (List.map List.reverse) with
          | none => none
          | some paths =>
            if P v then
              match dp v with
              | none => none
              | some p => some (if p.isEmpty then paths else paths ++ [p])
            else some paths) =
          (match acc with
          | none => none
          | some paths =>
            if P v then
              match dp v with
              | none => none
              | some p => some (if p.isEmpty then paths else paths ++ [p.reverse])
            else some paths).map (List.map List.reverse) := by
        rcases acc with _ | paths
        · rfl
        · show (if P v = true then
                  match dp v with
                  | none => none
                  | some p => some (if p.isEmpty = true then List.map List.reverse paths
                                    else List.map List.reverse paths ++ [p])
                else some (List.map List.reverse paths)) =
               Option.map (List.map List.reverse)
                 (if P v = true then
                    match dp v with
                    | none => none
                    | some p => some (if p.isEmpty = true then paths else paths ++ [p.reverse])
                  else some paths)
          by_cases hP : P v = true
          · rw [if_pos hP, if_pos hP]
            rcases hdp : dp v with _ | p
            · rfl
            · show some (if p.isEmpty = true then List.map List.reverse paths
                         else List.map List.reverse paths ++ [p]) =
                   Option.map (List.map List.reverse)
                     (some (if p.isEmpty = true then paths else paths ++ [p.reverse]))
              by_cases hemp : p.isEmpty = true
              · rw [if_pos hemp, if_pos hemp]
                rfl
              · rw [if_neg hemp, if_neg hemp]
                simp
          · rw [if_neg hP, if_neg hP]
            rfl
      rw [hstep]
      exact ih _

/-- C10 (amended): `getAllFanIn(e)` equals the fan-out procedure run on
the reverse graph with the finish-point predicate replaced by the
start-point predicate and each collected path reversed edgewise (fan-in
paths are already in start-to-finish order); `getAllFanOut` itself is
that procedure with the finish-point predicate. -/
theorem claim_C10_amended (g : Graph) (s e : Nat) :
    getAllFanOut g s = fanOutGen g isFinishPointAt s ∧
    getAllFanIn g e = (fanOutGen (reverseGraph g) isStartPointAt e).map (List.map List.reverse) := by
  refine ⟨rfl, ?_⟩
  exact fanInGen_fold (fun v => isStartPointAt g v)
    (fun v => determinePath (depthFirstSearch (reverseGraph g) [] false e).parent
      ((depthFirstSearch (reverseGraph g) [] false e).visited.length + 1) [] e v)
    (List.range g.vertices.length) (some [])

/-- C10 counterexample: on the chain `in -> ASSIGN -> out` with endpoint
`out`, `all_fan_in` disagrees with literally computing `all_fan_out` on
the reverse graph (under either placement of the edgewise reversal),
because fan-out collects finish points while fan-in collects start
points. -/
theorem claim_C10_counterexample :
    getAllFanIn gChain 2 ≠ (getAllFanOut (reverseGraph gChain) 2).map (List.map List.reverse) ∧
    (getAllFanIn gChain 2).map (List.map List.reverse) ≠ getAllFanOut (reverseGraph gChain) 2 := by
  constructor
  · decide
  · decide

/-! ### Claims about name resolution and the waypoint layer -/

theorem getStartVertex_of_empty (g : Graph) (opts : Options)
    (rmatch : String → String → Bool) (name : String) (matchAny : Bool)
    (h : getVertices g opts rmatch name VertexGraphType.startPoint = []) :
    getStartVertex g opts rmatch name matchAny = Except.ok none := by
  cases matchAny <;> simp only [getStartVertex, h] <;> rfl

/-- C3 (amended): a begin waypoint that resolves to no start point makes
every `Netlist`-level waypoint query (`pathExists`, `getAnyPath`,
`getAllPaths`, `getAllFanOut`) fail with the unknown-name error; the
`NetlistPaths::pathExists` wrapper instead returns false (see the
counterexample). -/
theorem claim_C3_unknown_begin_errors (g : Graph) (opts : Options)
    (rmatch : String → String → Bool) (wp : Waypoints) (w1 : String) (rest : List String)
    (hw : wp.waypoints = w1 :: rest)
    (hempty : getVertices g opts rmatch w1 VertexGraphType.startPoint = []) :
    netlistPathExists g opts rmatch wp =
      Except.error (Err.exception ("could not find start vertex matching " ++ w1)) ∧
    netlistGetAnyPath g opts rmatch wp =
      Except.error (Err.exception ("could not find start vertex matching " ++ w1)) ∧
    netlistGetAllPaths g opts rmatch wp =
      Except.error (Err.exception ("could not find start vertex matching " ++ w1)) ∧
    getAllFanOutByName g opts rmatch w1 =
      Except.error (Err.exception ("could not find start vertex " ++ w1)) := by
  have hsv : ∀ ma, getStartVertex g opts rmatch w1 ma = Except.ok none :=
    fun ma => getStartVertex_of_empty g opts rmatch w1 ma hempty
  have hrf : resolveFirst g opts rmatch w1 opts.matchAnyVertex =
      Except.error (Err.exception ("could not find start vertex matching " ++ w1)) := by
    simp only [resolveFirst, hsv]
  have hrw : readWaypoints g opts rmatch wp =
      Except.error (Err.exception ("could not find start vertex matching " ++ w1)) := by
    simp only [readWaypoints, hw, readWaypointsGo, if_true, hrf]
  refine ⟨?_, ?_, ?_, ?_⟩
  · simp only [netlistPathExists, hrw]
  · simp only [netlistGetAnyPath, hrw]
  · simp only [netlistGetAllPaths, hrw]
  · simp only [getAllFanOutByName, hsv]

/-- C3 witness: on the empty graph, `x` matches no start point, and all
four `Netlist`-level queries report the unknown-name error. -/
theorem claim_C3_witness :
    ((⟨["x", "y"], []⟩ : Waypoints).waypoints = "x" :: ["y"] ∧
     getVertices emptyGraph exactOptions eqMatcher "x" VertexGraphType.startPoint = []) ∧
    (netlistPathExists emptyGraph exactOptions eqMatcher ⟨["x", "y"], []⟩ =
      Except.error (Err.exception ("could not find start vertex matching " ++ "x")) ∧
     netlistGetAnyPath emptyGraph exactOptions eqMatcher ⟨["x", "y"], []⟩ =
      Except.error (Err.exception ("could not find start vertex matching " ++ "x")) ∧
     netlistGetAllPaths emptyGraph exactOptions eqMatcher ⟨["x", "y"], []⟩ =
      Except.error (Err.exception ("could not find start vertex matching " ++ "x")) ∧
     getAllFanOutByName emptyGraph exactOptions eqMatcher "x" =
      Except.error (Err.exception ("could not find start vertex " ++ "x"))) :=
  ⟨⟨rfl, rfl⟩,
    claim_C3_unknown_begin_errors emptyGraph exactOptions eqMatcher
      ⟨["x", "y"], []⟩ "x" ["y"] rfl rfl⟩

/-- C3 counterexample: `NetlistPaths::pathExists` is a path-exists query
whose begin matches no start point, yet it returns false instead of
failing with an unknown-name error. -/
theorem claim_C3_counterexample :
    getVertices emptyGraph exactOptions eqMatcher "x" VertexGraphType.startPoint = [] ∧
    netlistPathsPathExists emptyGraph exactOptions eqMatcher "x" "y" = Except.ok false :=
  ⟨rfl, rfl⟩

/-- C6 (amended): whenever the matcher returns more than one candidate,
each single-vertex resolver (start, end, mid, register) with match-any
disabled fails with a multiple-matches error carrying every candidate's
name and kind.  In exact mode the matcher returns at most one vertex
(the first exact match), so this situation only arises in regex and
wildcard modes (see the counterexample). -/
theorem claim_C6_multiple_matches_error (g : Graph) (opts : Options)
    (rmatch : String → String → Bool) (name : String)
    (hs : 1 < (getVertices g opts rmatch name VertexGraphType.startPoint).length)
    (he : 1 < (getVertices g opts rmatch name VertexGraphType.endPoint).length)
    (hm : 1 < (getVertices g opts rmatch name VertexGraphType.midPoint).length)
    (hr : 1 < (getVertices g opts rmatch name VertexGraphType.reg).length) :
    getStartVertex g opts rmatch name false =
      Except.error (reportMultipleMatches g
        (getVertices g opts rmatch name VertexGraphType.startPoint) name "begin point") ∧
    getEndVertex g opts rmatch name false =
      Except.error (reportMultipleMatches g
        (getVertices g opts rmatch name VertexGraphType.endPoint) name "end point") ∧
    getMidVertex g opts rmatch name false =
      Except.error (reportMultipleMatches g
        (getVertices g opts rmatch name VertexGraphType.midPoint) name "mid point") ∧
    getRegVertex g opts rmatch name false =
      Except.error (reportMultipleMatches g
        (getVertices g opts rmatch name VertexGraphType.reg) name "register") := by
  refine ⟨?_, ?_, ?_, ?_⟩
  · simp only [getStartVertex, Bool.not_false, if_true]
    rw [if_pos hs]
  · simp only [getEndVertex, Bool.not_false, if_true]
    rw [if_pos he]
  · simp only [getMidVertex, Bool.not_false, if_true]
    rw [if_pos hm]
  · simp only [getRegVertex, Bool.not_false, if_true]
    rw [if_pos hr]

/-- C6 witness: two vertices named `x` that are simultaneously start,
end, mid and register candidates, wildcard mode: every resolver reports
the multiple-matches failure listing both. -/
theorem claim_C6_witness :
    (1 < (getVertices gDupX wildcardOptions eqMatcher "x" VertexGraphType.startPoint).length ∧
     1 < (getVertices gDupX wildcardOptions eqMatcher "x" VertexGraphType.endPoint).length ∧
     1 < (getVertices gDupX wildcardOptions eqMatcher "x" VertexGraphType.midPoint).length ∧
     1 < (getVertices gDupX wildcardOptions eqMatcher "x" VertexGraphType.reg).length) ∧
    (getStartVertex gDupX wildcardOptions eqMatcher "x" false =
      Except.error (reportMultipleMatches gDupX
        (getVertices gDupX wildcardOptions eqMatcher "x" VertexGraphType.startPoint)
        "x" "begin point") ∧
     getEndVertex gDupX wildcardOptions eqMatcher "x" false =
      Except.error (reportMultipleMatches gDupX
        (getVertices gDupX wildcardOptions eqMatcher "x" VertexGraphType.endPoint)
        "x" "end point") ∧
     getMidVertex gDupX wildcardOptions eqMatcher "x" false =
      Except.error (reportMultipleMatches gDupX
        (getVertices gDupX wildcardOptions eqMatcher "x" VertexGraphType.midPoint)
        "x" "mid point") ∧
     getRegVertex gDupX wildcardOptions eqMatcher "x" false =
      Except.error (reportMultipleMatches gDupX
        (getVertices gDupX wildcardOptions eqMatcher "x" VertexGraphType.reg)
        "x" "register")) :=
  ⟨⟨by decide, by decide, by decide, by decide⟩,
    claim_C6_multiple_matches_error gDupX wildcardOptions eqMatcher "x"
      (by decide) (by decide) (by decide) (by decide)⟩

/-- C6 counterexample: in exact matching mode two vertices match the
pattern `x` (same name, both start points), yet the resolver silently
returns the first instead of failing with a multiple-matches error. -/
theorem claim_C6_counterexample :
    (nameAt gDupX 0 = "x" ∧ nameAt gDupX 1 = "x" ∧
     isStartPointAt gDupX 0 = true ∧ isStartPointAt gDupX 1 = true) ∧
    getStartVertex gDupX exactOptions eqMatcher "x" false = Except.ok (some 0) :=
  ⟨⟨rfl, rfl, rfl, rfl⟩, rfl⟩

/-- C7: an empty waypoint list is not rejected: `readWaypoints` returns
an empty id vector without error, and `getAnyPointToPoint` /
`getAllPointToPoint` then underflow the `size_t` loop bound and index
the empty vector out of bounds (modelled as the undefined-behaviour
result), so `pathExists` neither reports a proper error nor returns a
normal result. -/
theorem claim_C7_empty_waypoints_not_rejected (g : Graph) (opts : Options)
    (rmatch : String → String → Bool) :
    readWaypoints g opts rmatch ⟨[], []⟩ = Except.ok [] ∧
    getAnyPointToPoint g [] [] = none ∧
    getAllPointToPoint g [] [] = none ∧
    netlistPathExists g opts rmatch ⟨[], []⟩ =
      Except.error (Err.undefinedBehavior
        "getAnyPointToPoint: empty waypoint vector indexed out of bounds") :=
  ⟨rfl, rfl, rfl, rfl⟩

/-! ### Claims about the loader -/

/-- C5 (amended): if the counting loop - which starts at the first
`module` child of the netlist and scans the following siblings - sees a
module count other than one or any iface, the loader completes without
failing and returns the empty graph.  An iface placed before the first
module escapes the count (see the counterexample). -/
theorem claim_C5_nonflat_empty_graph (children : List XML)
    (h : ¬(countTag "module" (dropBeforeModule children) = 1 ∧
           countTag "iface" (dropBeforeModule children) = 0)) :
    readXML children = Except.ok emptyGraph := by
  simp only [readXML]
  rw [if_neg h]

/-- C5 witness: two top-level modules make the loader return the empty
graph without failing. -/
theorem claim_C5_witness :
    (¬(countTag "module" (dropBeforeModule
        [XML.mk "module" [("name", "TOP")] [], XML.mk "module" [("name", "B")] []]) = 1 ∧
       countTag "iface" (dropBeforeModule
        [XML.mk "module" [("name", "TOP")] [], XML.mk "module" [("name", "B")] []]) = 0)) ∧
    readXML [XML.mk "module" [("name", "TOP")] [], XML.mk "module" [("name", "B")] []] =
      Except.ok emptyGraph :=
  ⟨by decide,
    claim_C5_nonflat_empty_graph
      [XML.mk "module" [("name", "TOP")] [], XML.mk "module" [("name", "B")] []]
      (by decide)⟩

/-- C5 counterexample: a netlist containing an iface (placed before its
single module) loads a non-empty graph, because the counting loop begins
at the first `module` child and misses the iface. -/
theorem claim_C5_counterexample :
    countTag "iface" cexC5Input = 1 ∧
    readXML cexC5Input = Except.ok gC5 ∧
    gC5 ≠ emptyGraph :=
  ⟨by decide, rfl, by decide⟩

/-- C8 (amended): a `varref` inside a scope but not under a current
logic vertex makes the walker fail with the malformed-input error; a
`varref` outside any scope is silently skipped instead (see the
counterexample). -/
theorem claim_C8_varref_without_logic_fails (fuel : Nat)
    (attrs : List (String × String)) (children : List XML) (st : LoaderState)
    (n : String)
    (hscope : st.scopeDepth ≠ 0)
    (hlogic : st.currentLogic = none)
    (hname : attrs.lookup "name" = some n) :
    walkF (fuel + 1) (XML.mk "varref" attrs children) st =
      Except.error (Err.xmlError ("var " ++ n ++ " not under a logic block")) := by
  have hvr : newVarRefWith (fun x s => walkF fuel x s) attrs children st =
      Except.error (Err.xmlError ("var " ++ n ++ " not under a logic block")) := by
    simp only [newVarRefWith]
    rw [if_neg hscope, hlogic, hname]
  simp only [walkF, reduceIte]
  rw [hvr]
  rfl

/-- C8 witness: inside one scope with no enclosing logic, a `varref`
named `x` raises the malformed-input failure. -/
theorem claim_C8_witness :
    ((⟨emptyGraph, [], "", 1, none, false, false⟩ : LoaderState).scopeDepth ≠ 0 ∧
     (⟨emptyGraph, [], "", 1, none, false, false⟩ : LoaderState).currentLogic = none ∧
     ([("name", "x")] : List (String × String)).lookup "name" = some "x") ∧
    walkF 1 (XML.mk "varref" [("name", "x")] []) ⟨emptyGraph, [], "", 1, none, false, false⟩ =
      Except.error (Err.xmlError ("var " ++ "x" ++ " not under a logic block")) :=
  ⟨⟨by decide, rfl, rfl⟩,
    claim_C8_varref_without_logic_fails 0 [("name", "x")] []
      ⟨emptyGraph, [], "", 1, none, false, false⟩ "x" (by decide) rfl rfl⟩

/-- C8 counterexample: the same `varref` at module level - outside any
scope - does not make the loader fail: the whole netlist loads
successfully to the empty graph because `newVarRef` is guarded by
`if (currentScope)`. -/
theorem claim_C8_counterexample :
    readXML cexC8Input = Except.ok emptyGraph := rfl

/-- C2 counterexample: the loader connects a port variable and its
`origName`-matching internal variable with a pair of direct
variable-to-variable edges (ReadVerilatorXML.cpp lines 258-274), so the
graph produced by the loader does contain edges with no logic
endpoint. -/
theorem claim_C2_counterexample :
    readXML cexC2Input = Except.ok gStitch ∧
    (0, 1) ∈ gStitch.edges ∧ (1, 0) ∈ gStitch.edges ∧
    isVarAt gStitch 0 = true ∧ isVarAt gStitch 1 = true ∧
    isLogicAt gStitch 0 = false ∧ isLogicAt gStitch 1 = false :=
  ⟨by rfl, by decide, by decide, rfl, rfl, rfl, rfl⟩

/-! ### Loader invariants (C2) -/

theorem lookupPair_mem {α β : Type} [BEq α] [LawfulBEq α] {l : List (α × β)} {k : α} {v : β}
    (h : l.lookup k = some v) : (k, v) ∈ l := by
  induction l with
  | nil => cases h
  | cons a l ih =>
      rw [List.lookup_cons] at h
      rcases hk : k == a.1 with _ | _
      · rw [hk] at h
        exact List.mem_cons_of_mem a (ih h)
      · rw [hk] at h
        cases h
        have : k = a.1 := by simpa using hk
        cases a
        simp_all

theorem graphLe_refl (g : Graph) : GraphLe g g :=
  ⟨fun _ h => h, fun _ h => h, fun _ h => h⟩

theorem graphLe_trans {g1 g2 g3 : Graph} (h1 : GraphLe g1 g2) (h2 : GraphLe g2 g3) :
    GraphLe g1 g3 :=
  ⟨fun i h => h2.1 i (h1.1 i h), fun i h => h2.2.1 i (h1.2.1 i h),
   fun i h => h2.2.2 i (h1.2.2 i h)⟩

theorem vertexAt_append_of_some {g : Graph} {w : Vertex} {E : List (Nat × Nat)}
    {i : Nat} {v : Vertex} (h : vertexAt g i = some v) :
    vertexAt ⟨g.vertices ++ [w], E⟩ i = some v := by
  unfold vertexAt at h ⊢
  obtain ⟨hlt, _⟩ := List.getElem?_eq_some.mp h
  rw [List.getElem?_append_left hlt]
  exact h

theorem vertexAt_concat_self {g : Graph} {w : Vertex} {E : List (Nat × Nat)} :
    vertexAt ⟨g.vertices ++ [w], E⟩ g.vertices.length = some w := by
  unfold vertexAt
  exact List.getElem?_concat_length g.vertices w

theorem isLogicAt_mono_append {g : Graph} {w : Vertex} {E : List (Nat × Nat)} {i : Nat}
    (h : isLogicAt g i = true) : isLogicAt (⟨g.vertices ++ [w], E⟩ : Graph) i = true := by
  unfold isLogicAt at h ⊢
  rcases hv : vertexAt g i with _ | v
  · rw [hv] at h
    cases h
  · rw [hv] at h
    rw [vertexAt_append_of_some hv]
    exact h

theorem isVarAt_mono_append {g : Graph} {w : Vertex} {E : List (Nat × Nat)} {i : Nat}
    (h : isVarAt g i = true) : isVarAt (⟨g.vertices ++ [w], E⟩ : Graph) i = true := by
  unfold isVarAt at h ⊢
  rcases hv : vertexAt g i with _ | v
  · rw [hv] at h
    cases h
  · rw [hv] at h
    rw [vertexAt_append_of_some hv]
    exact h

theorem isPortAt_mono_append {g : Graph} {w : Vertex} {E : List (Nat × Nat)} {i : Nat}
    (h : isPortAt g i = true) : isPortAt (⟨g.vertices ++ [w], E⟩ : Graph) i = true := by
  unfold isPortAt at h ⊢
  rcases hv : vertexAt g i with _ | v
  · rw [hv] at h
    cases h
  · rw [hv] at h
    rw [vertexAt_append_of_some hv]
    exact h

theorem graphLe_append (g : Graph) (w : Vertex) (E : List (Nat × Nat)) :
    GraphLe g ⟨g.vertices ++ [w], E⟩ :=
  ⟨fun _ h => isLogicAt_mono_append h, fun _ h => isVarAt_mono_append h,
   fun _ h => isPortAt_mono_append h⟩

theorem graphLe_addEdge (g : Graph) (s t : Nat) : GraphLe g (addEdgeG g s t) :=
  ⟨fun _ h => h, fun _ h => h, fun _ h => h⟩

theorem setVertexDstRegG_vertexAt {g : Graph} {j i : Nat} :
    isLogicAt (setVertexDstRegG g j) i = isLogicAt g i ∧
    isVarAt (setVertexDstRegG g j) i = isVarAt g i ∧
    isPortAt (setVertexDstRegG g j) i = isPortAt g i := by
  unfold setVertexDstRegG
  rcases hj : g.vertices[j]? with _ | v
  · exact ⟨rfl, rfl, rfl⟩
  · by_cases hij : j = i
    · subst hij
      have hset : (g.vertices.set j
          { v with vtype := match v.vtype with
              | VKind.varV _ => VKind.varV Role.dstReg
              | t => t })[j]? = some
          { v with vtype := match v.vtype with
              | VKind.varV _ => VKind.varV Role.dstReg
              | t => t } := by
        obtain ⟨hlt, _⟩ := List.getElem?_eq_some.mp hj
        exact List.getElem?_set_eq hlt
      unfold isLogicAt isVarAt isPortAt vertexAt
      simp only [hset, hj]
      rcases v with ⟨vt, nm, d, p⟩
      rcases vt with r | k
      · refine ⟨rfl, rfl, ?_⟩
        cases d <;> rfl
      · exact ⟨rfl, rfl, rfl⟩
    · simp only [isLogicAt, isVarAt, isPortAt, vertexAt]
      rw [List.getElem?_set_ne hij]
      exact ⟨rfl, rfl, rfl⟩

theorem graphLe_setDstReg (g : Graph) (j : Nat) : GraphLe g (setVertexDstRegG g j) := by
  refine ⟨?_, ?_, ?_⟩ <;> intro i h
  · rw [(setVertexDstRegG_vertexAt (g := g) (j := j) (i := i)).1]
    exact h
  · rw [(setVertexDstRegG_vertexAt (g := g) (j := j) (i := i)).2.1]
    exact h
  · rw [(setVertexDstRegG_vertexAt (g := g) (j := j) (i := i)).2.2]
    exact h

theorem setVertexDstRegG_edges (g : Graph) (j : Nat) :
    (setVertexDstRegG g j).edges = g.edges := by
  unfold setVertexDstRegG
  rcases g.vertices[j]? with _ | v <;> rfl


theorem isPortAt_portDir {g : Graph} {i : Nat} (h : isPortAt g i = true) :
    isPortDir (dirAt g i) := by
  unfold isPortAt at h
  unfold dirAt
  rcases hv : vertexAt g i with _ | v
  · rw [hv] at h
    cases h
  · rw [hv] at h
    rcases v with ⟨vt, nm, d, p⟩
    rcases vt with r | k <;> rcases d <;>
      simp only [isPortV] at h ⊢ <;>
      first
        | exact Or.inl rfl
        | exact Or.inr (Or.inl rfl)
        | exact Or.inr (Or.inr rfl)
        | cases h

theorem setVertexDirectionG_vertices_pred {g : Graph} {j : Nat} {d : Dir}
    (hd : isPortDir d) (i : Nat) :
    (isLogicAt g i = true → isLogicAt (setVertexDirectionG g j d) i = true) ∧
    (isVarAt g i = true → isVarAt (setVertexDirectionG g j d) i = true) ∧
    (isPortAt g i = true → isPortAt (setVertexDirectionG g j d) i = true) := by
  unfold setVertexDirectionG
  rcases hj : g.vertices[j]? with _ | v
  · exact ⟨fun h => h, fun h => h, fun h => h⟩
  · obtain ⟨hlt, _⟩ := List.getElem?_eq_some.mp hj
    by_cases hij : j = i
    · subst hij
      simp only [isLogicAt, isVarAt, isPortAt, vertexAt]
      rw [List.getElem?_set_eq hlt, hj]
      rcases v with ⟨vt, nm, d0, p⟩
      rcases vt with r | k
      · refine ⟨?_, ?_, ?_⟩
        · intro h
          simp at h
        · intro _
          rfl
        · intro _
          rcases hd with hd | hd | hd <;> subst hd <;> rfl
      · refine ⟨?_, ?_, ?_⟩
        · intro _
          rfl
        · intro h
          simp at h
        · intro h
          simp [isPortV] at h
    · simp only [isLogicAt, isVarAt, isPortAt, vertexAt]
      rw [List.getElem?_set_ne hij]
      exact ⟨fun h => h, fun h => h, fun h => h⟩

theorem graphLe_setDir {g : Graph} {j : Nat} {d : Dir} (hd : isPortDir d) :
    GraphLe g (setVertexDirectionG g j d) :=
  ⟨fun i => (setVertexDirectionG_vertices_pred hd i).1,
   fun i => (setVertexDirectionG_vertices_pred hd i).2.1,
   fun i => (setVertexDirectionG_vertices_pred hd i).2.2⟩

theorem setVertexDirectionG_edges (g : Graph) (j : Nat) (d : Dir) :
    (setVertexDirectionG g j d).edges = g.edges := by
  unfold setVertexDirectionG
  rcases g.vertices[j]? with _ | v <;> rfl

theorem isPortAt_setDir_self {g : Graph} {j : Nat} {d : Dir}
    (hvar : isVarAt g j = true) (hd : isPortDir d) :
    isPortAt (setVertexDirectionG g j d) j = true := by
  unfold isVarAt at hvar
  unfold setVertexDirectionG
  rcases hj : vertexAt g j with _ | v
  · rw [hj] at hvar
    cases hvar
  · rw [hj] at hvar
    unfold vertexAt at hj
    rw [hj]
    obtain ⟨hlt, _⟩ := List.getElem?_eq_some.mp hj
    unfold isPortAt vertexAt
    simp only [List.getElem?_set_eq hlt]
    rcases v with ⟨vt, nm, d0, p⟩
    rcases vt with r | k
    · rcases hd with hd | hd | hd <;> subst hd <;> simp [isPortV]
    · simp at hvar


theorem edgeOKb_mono {g g' : Graph} (hle : GraphLe g g') {e : Nat × Nat}
    (h : edgeOKb g e = true) : edgeOKb g' e = true := by
  unfold edgeOKb at h ⊢
  simp only [Bool.or_eq_true, Bool.and_eq_true] at h ⊢
  rcases h with (h | h) | ⟨h1, h2⟩
  · exact Or.inl (Or.inl (hle.1 _ h))
  · exact Or.inl (Or.inr (hle.1 _ h))
  · exact Or.inr ⟨hle.2.2 _ h1, hle.2.2 _ h2⟩

theorem lookupVarVertex_mem {st : LoaderState} {n : String} {v : Nat}
    (h : lookupVarVertex st n = some v) : ∃ k, (k, v) ∈ st.vars := by
  unfold lookupVarVertex at h
  rcases hl : st.vars.lookup n with _ | w
  · rw [hl] at h
    exact ⟨_, lookupPair_mem h⟩
  · rw [hl] at h
    cases h
    exact ⟨_, lookupPair_mem hl⟩

theorem isVarAt_concat {g : Graph} {E : List (Nat × Nat)} {r : Role} {nm : String}
    {d : Dir} {p : Bool} :
    isVarAt ⟨g.vertices ++ [⟨VKind.varV r, nm, d, p⟩], E⟩ g.vertices.length = true := by
  unfold isVarAt
  rw [vertexAt_concat_self]

theorem isLogicAt_concat {g : Graph} {E : List (Nat × Nat)} {k : LogicKind} {nm : String}
    {d : Dir} {p : Bool} :
    isLogicAt ⟨g.vertices ++ [⟨VKind.logicV k, nm, d, p⟩], E⟩ g.vertices.length = true := by
  unfold isLogicAt
  rw [vertexAt_concat_self]

theorem loaderInv_mk {st : LoaderState} {g' : Graph} {vars' : List (String × Nat)}
    {tn : String}
    (hInv : LoaderInv st) (hle : GraphLe st.g g')
    (hE : ∀ e ∈ g'.edges, edgeOKb g' e = true)
    (hvars : ∀ p ∈ vars', p ∈ st.vars ∨ isVarAt g' p.2 = true) :
    LoaderInv { st with g := g', topName := tn, vars := vars' } := by
  refine ⟨hE, ?_, ?_⟩
  · intro l hl
    exact hle.1 l (hInv.2.1 l hl)
  · intro p hp
    rcases hvars p hp with h | h
    · exact hle.2.1 _ (hInv.2.2 p h)
    · exact h

theorem initLoaderState_inv : LoaderInv initLoaderState := by
  refine ⟨?_, ?_, ?_⟩
  · intro e he
    exact absurd he (List.not_mem_nil e)
  · intro l hl
    cases hl
  · intro p hp
    exact absurd hp (List.not_mem_nil p)

theorem varRefStep {st : LoaderState} {g1 : Graph} {lv vv : Nat}
    (hInv : LoaderInv st) (hcl : st.currentLogic = some lv)
    (hle : GraphLe st.g g1)
    (hE : g1.edges = st.g.edges ++ [(lv, vv)] ∨ g1.edges = st.g.edges ++ [(vv, lv)]) :
    LoaderInv { st with g := g1 } := by
  have hlg : isLogicAt g1 lv = true := hle.1 lv (hInv.2.1 lv hcl)
  refine ⟨?_, fun l hl => hle.1 l (hInv.2.1 l hl), fun p hp => hle.2.1 _ (hInv.2.2 p hp)⟩
  intro e he
  rcases hE with hE | hE <;> rw [hE] at he <;>
    rcases List.mem_append.mp he with h | h
  · exact edgeOKb_mono hle (hInv.1 e h)
  · simp only [List.mem_singleton] at h
    subst h
    simp [edgeOKb, hlg]
  · exact edgeOKb_mono hle (hInv.1 e h)
  · simp only [List.mem_singleton] at h
    subst h
    simp [edgeOKb, hlg]

theorem walkKidsWith_pres (w : XML → LoaderState → Except Err LoaderState)
    (hw : ∀ x s s', LoaderInv s → w x s = Except.ok s' →
      LoaderInv s' ∧ GraphLe s.g s'.g) :
    ∀ (l : List XML) (st st' : LoaderState), LoaderInv st →
      walkKidsWith w l st = Except.ok st' → LoaderInv st' ∧ GraphLe st.g st'.g := by
  intro l
  induction l with
  | nil =>
      intro st st' hInv hok
      simp only [walkKidsWith] at hok
      cases hok
      exact ⟨hInv, graphLe_refl _⟩
  | cons x rest ih =>
      intro st st' hInv hok
      simp only [walkKidsWith] at hok
      split at hok
      · cases hok
      · rename_i st1 heq
        obtain ⟨h1, hle1⟩ := hw x st st1 hInv heq
        obtain ⟨h2, hle2⟩ := ih st1 st' h1 hok
        exact ⟨h2, graphLe_trans hle1 hle2⟩

theorem stitchFacts {gA : Graph} {pub vid : Nat}
    (hpub : isPortAt gA pub = true)
    (hvar : isVarAt gA vid = true)
    (hEOK : ∀ e ∈ gA.edges, edgeOKb gA e = true) :
    GraphLe gA (setVertexDirectionG (addEdgeG (addEdgeG gA pub vid) vid pub) vid
      (dirAt (addEdgeG (addEdgeG gA pub vid) vid pub) pub)) ∧
    (∀ e ∈ (setVertexDirectionG (addEdgeG (addEdgeG gA pub vid) vid pub) vid
        (dirAt (addEdgeG (addEdgeG gA pub vid) vid pub) pub)).edges,
      edgeOKb (setVertexDirectionG (addEdgeG (addEdgeG gA pub vid) vid pub) vid
        (dirAt (addEdgeG (addEdgeG gA pub vid) vid pub) pub)) e = true) ∧
    isVarAt (setVertexDirectionG (addEdgeG (addEdgeG gA pub vid) vid pub) vid
      (dirAt (addEdgeG (addEdgeG gA pub vid) vid pub) pub)) vid = true := by
  have hpd : isPortDir (dirAt (addEdgeG (addEdgeG gA pub vid) vid pub) pub) :=
    isPortAt_portDir (show isPortAt (addEdgeG (addEdgeG gA pub vid) vid pub) pub = true from hpub)
  have hle15 : GraphLe gA (addEdgeG (addEdgeG gA pub vid) vid pub) :=
    graphLe_trans (graphLe_addEdge _ _ _) (graphLe_addEdge _ _ _)
  have hle2 : GraphLe (addEdgeG (addEdgeG gA pub vid) vid pub)
      (setVertexDirectionG (addEdgeG (addEdgeG gA pub vid) vid pub) vid
        (dirAt (addEdgeG (addEdgeG gA pub vid) vid pub) pub)) := graphLe_setDir hpd
  have hleA : GraphLe gA (setVertexDirectionG (addEdgeG (addEdgeG gA pub vid) vid pub) vid
      (dirAt (addEdgeG (addEdgeG gA pub vid) vid pub) pub)) := graphLe_trans hle15 hle2
  have hvar15 : isVarAt (addEdgeG (addEdgeG gA pub vid) vid pub) vid = true := hvar
  have hpvid : isPortAt (setVertexDirectionG (addEdgeG (addEdgeG gA pub vid) vid pub) vid
      (dirAt (addEdgeG (addEdgeG gA pub vid) vid pub) pub)) vid = true :=
    isPortAt_setDir_self hvar15 hpd
  have hppub : isPortAt (setVertexDirectionG (addEdgeG (addEdgeG gA pub vid) vid pub) vid
      (dirAt (addEdgeG (addEdgeG gA pub vid) vid pub) pub)) pub = true :=
    hleA.2.2 pub hpub
  refine ⟨hleA, ?_, hle2.2.1 vid hvar15⟩
  intro e he
  rw [setVertexDirectionG_edges] at he
  have he' : e ∈ (gA.edges ++ [(pub, vid)]) ++ [(vid, pub)] := he
  rcases List.mem_append.mp he' with h | h
  · rcases List.mem_append.mp h with h2 | h2
    · exact edgeOKb_mono hleA (hEOK e h2)
    · simp only [List.mem_singleton] at h2
      subst h2
      simp [edgeOKb, hpvid, hppub]
  · simp only [List.mem_singleton] at h
    subst h
    simp [edgeOKb, hpvid, hppub]

theorem newVarW_pres {attrs : List (String × String)} {children : List XML}
    {st st' : LoaderState} (hInv : LoaderInv st)
    (hok : newVarW attrs children st = Except.ok st') :
    LoaderInv st' ∧ GraphLe st.g st'.g := by
  simp only [newVarW] at hok
  rcases hname : attrs.lookup "name" with _ | name
  · simp only [hname] at hok
    cases hok
  · simp only [hname] at hok
    rcases hloc : attrs.lookup "loc" with _ | locv
    · simp only [hloc] at hok
      cases hok
    · simp only [hloc] at hok
      rcases hdt : attrs.lookup "dtype_id" with _ | dtv
      · simp only [hdt] at hok
        cases hok
      · simp only [hdt] at hok
        split at hok
        · cases hok
        · rename_i isParam heqP
          split at hok
          · cases hok
          · rename_i topName1 heqT
            have hv1 : ∀ p ∈ (if (st.vars.lookup (addTopPfx topName1 name)).isNone = true
                  then st.vars ++ [(addTopPfx topName1 name, st.g.vertices.length)]
                  else st.vars),
                p ∈ st.vars ∨ p.2 = st.g.vertices.length := by
              intro p hp
              split at hp
              · rcases List.mem_append.mp hp with h | h
                · exact Or.inl h
                · simp only [List.mem_singleton] at h
                  subst h
                  exact Or.inr rfl
              · exact Or.inl hp
            split at hok
            · cases hok
              refine ⟨loaderInv_mk hInv (graphLe_append _ _ _)
                (fun e he => edgeOKb_mono (graphLe_append _ _ _) (hInv.1 e he))
                (fun p hp => ?_), graphLe_append _ _ _⟩
              rcases hv1 p hp with h | h
              · exact Or.inl h
              · refine Or.inr ?_
                rw [h]
                exact isVarAt_concat
            · split at hok
              · cases hok
                refine ⟨loaderInv_mk hInv (graphLe_append _ _ _)
                  (fun e he => edgeOKb_mono (graphLe_append _ _ _) (hInv.1 e he))
                  (fun p hp => ?_), graphLe_append _ _ _⟩
                rcases hv1 p hp with h | h
                · exact Or.inl h
                · refine Or.inr ?_
                  rw [h]
                  exact isVarAt_concat
              · rename_i pub heqL
                split at hok
                · rename_i hcond
                  cases hok
                  obtain ⟨hleA, hE2, hvid2⟩ := stitchFacts hcond.2.1 isVarAt_concat
                    (fun e he => edgeOKb_mono (graphLe_append _ _ _) (hInv.1 e he))
                  refine ⟨loaderInv_mk hInv (graphLe_trans (graphLe_append _ _ _) hleA) hE2
                    (fun p hp => ?_), graphLe_trans (graphLe_append _ _ _) hleA⟩
                  rcases hv1 p hp with h | h
                  · exact Or.inl h
                  · refine Or.inr ?_
                    rw [h]
                    exact hvid2
                · cases hok
                  refine ⟨loaderInv_mk hInv (graphLe_append _ _ _)
                    (fun e he => edgeOKb_mono (graphLe_append _ _ _) (hInv.1 e he))
                    (fun p hp => ?_), graphLe_append _ _ _⟩
                  rcases hv1 p hp with h | h
                  · exact Or.inl h
                  · refine Or.inr ?_
                    rw [h]
                    exact isVarAt_concat

theorem newVarScopeW_pres {attrs : List (String × String)} {children : List XML}
    {st st' : LoaderState} (hInv : LoaderInv st)
    (hok : newVarScopeW attrs children st = Except.ok st') :
    LoaderInv st' ∧ GraphLe st.g st'.g := by
  simp only [newVarScopeW] at hok
  split at hok
  · cases hok
  · split at hok
    · cases hok
      exact ⟨hInv, graphLe_refl _⟩
    · exact newVarW_pres hInv hok

theorem stmtTailW_pres (w : XML → LoaderState → Except Err LoaderState)
    (hw : ∀ x s s', LoaderInv s → w x s = Except.ok s' →
      LoaderInv s' ∧ GraphLe s.g s'.g)
    {children : List XML} {k : LogicKind} {cl0 : Option Nat}
    {st1 st' : LoaderState} (hInv1 : LoaderInv st1)
    (hcl0 : ∀ l, cl0 = some l → isLogicAt st1.g l = true)
    (hok : stmtTailW w children k cl0 st1 = Except.ok st') :
    LoaderInv st' ∧ GraphLe st1.g st'.g := by
  simp only [stmtTailW] at hok
  split at hok
  · split at hok
    · rename_i r l
      split at hok
      · cases hok
      · rename_i st2 heq2
        split at hok
        · cases hok
        · rename_i st3 heq3
          cases hok
          obtain ⟨h2, hleB⟩ := hw r st1 st2 hInv1 heq2
          obtain ⟨h3, hleC⟩ := hw l { st2 with isLValue := true } st3 h2 heq3
          have hle : GraphLe st1.g st3.g := graphLe_trans hleB hleC
          refine ⟨⟨h3.1, ?_, h3.2.2⟩, hle⟩
          intro l2 hl2
          exact hle.1 l2 (hcl0 l2 hl2)
    · cases hok
  · split at hok
    · cases hok
    · rename_i st2 heq2
      cases hok
      obtain ⟨h2, hleB⟩ := walkKidsWith_pres w hw children st1 st2 hInv1 heq2
      refine ⟨⟨h2.1, ?_, h2.2.2⟩, hleB⟩
      intro l2 hl2
      exact hleB.1 l2 (hcl0 l2 hl2)

theorem stmtBodyWith_pres (w : XML → LoaderState → Except Err LoaderState)
    (hw : ∀ x s s', LoaderInv s → w x s = Except.ok s' →
      LoaderInv s' ∧ GraphLe s.g s'.g)
    {attrs : List (String × String)} {children : List XML} {k : LogicKind}
    {st st' : LoaderState} (hInv : LoaderInv st)
    (hok : stmtBodyWith w attrs children k st = Except.ok st') :
    LoaderInv st' ∧ GraphLe st.g st'.g := by
  simp only [stmtBodyWith] at hok
  split at hok
  · cases hok
    exact ⟨hInv, graphLe_refl _⟩
  · split at hok
    · cases hok
    · rcases hcl : st.currentLogic with _ | p
      · rw [hcl] at hok
        have hle1 : GraphLe st.g
            (⟨st.g.vertices ++ [⟨VKind.logicV k, "", Dir.noneDir, false⟩],
              st.g.edges⟩ : Graph) := graphLe_append _ _ _
        have hInv1 : LoaderInv { st with
            g := (⟨st.g.vertices ++ [⟨VKind.logicV k, "", Dir.noneDir, false⟩],
              st.g.edges⟩ : Graph),
            currentLogic := some st.g.vertices.length } := by
          refine ⟨?_, ?_, ?_⟩
          · intro e he
            exact edgeOKb_mono hle1 (hInv.1 e he)
          · intro l hl
            cases hl
            exact isLogicAt_concat
          · intro q hq
            exact hle1.2.1 _ (hInv.2.2 q hq)
        obtain ⟨hF, hleF⟩ := stmtTailW_pres w hw hInv1
          (fun l hl => Option.noConfusion hl) hok
        exact ⟨hF, graphLe_trans hle1 hleF⟩
      · rw [hcl] at hok
        have hle1 : GraphLe st.g
            (addEdgeG (⟨st.g.vertices ++ [⟨VKind.logicV k, "", Dir.noneDir, false⟩],
              st.g.edges⟩ : Graph) p st.g.vertices.length) :=
          graphLe_trans (graphLe_append _ _ _) (graphLe_addEdge _ _ _)
        have hlogp : isLogicAt
            (addEdgeG (⟨st.g.vertices ++ [⟨VKind.logicV k, "", Dir.noneDir, false⟩],
              st.g.edges⟩ : Graph) p st.g.vertices.length) p = true :=
          hle1.1 p (hInv.2.1 p hcl)
        have hInv1 : LoaderInv { st with
            g := addEdgeG (⟨st.g.vertices ++ [⟨VKind.logicV k, "", Dir.noneDir, false⟩],
              st.g.edges⟩ : Graph) p st.g.vertices.length,
            currentLogic := some st.g.vertices.length } := by
          refine ⟨?_, ?_, ?_⟩
          · intro e he
            have he' : e ∈ st.g.edges ++ [(p, st.g.vertices.length)] := he
            rcases List.mem_append.mp he' with h | h
            · exact edgeOKb_mono hle1 (hInv.1 e h)
            · simp only [List.mem_singleton] at h
              subst h
              simp [edgeOKb, hlogp]
          · intro l hl
            cases hl
            exact isLogicAt_concat
          · intro q hq
            exact hle1.2.1 _ (hInv.2.2 q hq)
        obtain ⟨hF, hleF⟩ := stmtTailW_pres w hw hInv1 (fun l hl => by
          cases hl
          exact hlogp) hok
        exact ⟨hF, graphLe_trans hle1 hleF⟩

theorem newVarRefWith_pres (w : XML → LoaderState → Except Err LoaderState)
    (hw : ∀ x s s', LoaderInv s → w x s = Except.ok s' →
      LoaderInv s' ∧ GraphLe s.g s'.g)
    {attrs : List (String × String)} {children : List XML}
    {st st' : LoaderState} (hInv : LoaderInv st)
    (hok : newVarRefWith w attrs children st = Except.ok st') :
    LoaderInv st' ∧ GraphLe st.g st'.g := by
  simp only [newVarRefWith] at hok
  split at hok
  · cases hok
    exact ⟨hInv, graphLe_refl _⟩
  · split at hok
    · split at hok <;> cases hok
    · rename_i lv hcl
      split at hok
      · cases hok
      · rename_i varName hname
        split at hok
        · cases hok
        · rename_i vv hvv
          by_cases hlval : st.isLValue = true
          · rw [if_pos hlval] at hok
            by_cases hdly : st.isDelayedAssign = true
            · rw [if_pos hdly] at hok
              have hle1 : GraphLe st.g (setVertexDstRegG (addEdgeG st.g lv vv) vv) :=
                graphLe_trans (graphLe_addEdge _ _ _) (graphLe_setDstReg _ _)
              have hEdst : (setVertexDstRegG (addEdgeG st.g lv vv) vv).edges =
                  st.g.edges ++ [(lv, vv)] := by
                rw [setVertexDstRegG_edges]
                rfl
              have hInv1 : LoaderInv { st with g := setVertexDstRegG (addEdgeG st.g lv vv) vv } :=
                varRefStep hInv hcl hle1 (Or.inl hEdst)
              obtain ⟨h2, hle2⟩ := walkKidsWith_pres w hw children _ st' hInv1 hok
              exact ⟨h2, graphLe_trans hle1 hle2⟩
            · rw [if_neg hdly] at hok
              have hle1 : GraphLe st.g (addEdgeG st.g lv vv) := graphLe_addEdge _ _ _
              have hInv1 : LoaderInv { st with g := addEdgeG st.g lv vv } :=
                varRefStep hInv hcl hle1 (Or.inl rfl)
              obtain ⟨h2, hle2⟩ := walkKidsWith_pres w hw children _ st' hInv1 hok
              exact ⟨h2, graphLe_trans hle1 hle2⟩
          · rw [if_neg hlval] at hok
            have hle1 : GraphLe st.g (addEdgeG st.g vv lv) := graphLe_addEdge _ _ _
            have hInv1 : LoaderInv { st with g := addEdgeG st.g vv lv } :=
              varRefStep hInv hcl hle1 (Or.inr rfl)
            obtain ⟨h2, hle2⟩ := walkKidsWith_pres w hw children _ st' hInv1 hok
            exact ⟨h2, graphLe_trans hle1 hle2⟩

theorem walkF_pres : ∀ (fuel : Nat) (x : XML) (st st' : LoaderState), LoaderInv st →
    walkF fuel x st = Except.ok st' → LoaderInv st' ∧ GraphLe st.g st'.g := by
  intro fuel
  induction fuel with
  | zero =>
      intro x st st' _ hok
      simp only [walkF] at hok
      cases hok
  | succ fuel ih =>
      intro x st st' hInv hok
      rcases x with ⟨nm, attrs, children⟩
      simp only [walkF] at hok
      split at hok
      · split at hok
        · cases hok
        · rename_i st1 heq
          obtain ⟨h1, hle1⟩ := walkKidsWith_pres _ (fun x s s' h hk => ih x s s' h hk)
            children { st with scopeDepth := st.scopeDepth + 1 } st1 hInv heq
          cases hok
          exact ⟨h1, hle1⟩
      · split at hok
        · exact newVarW_pres hInv hok
        · split at hok
          · exact newVarScopeW_pres hInv hok
          · split at hok
            · split at hok
              · cases hok
              · rename_i st1 heq
                obtain ⟨h1, hle1⟩ := newVarRefWith_pres _
                  (fun x s s' h hk => ih x s s' h hk) hInv heq
                obtain ⟨h2, hle2⟩ := walkKidsWith_pres _
                  (fun x s s' h hk => ih x s s' h hk) children st1 st' h1 hok
                exact ⟨h2, graphLe_trans hle1 hle2⟩
            · split at hok
              · split at hok
                · cases hok
                · rename_i st1 heq
                  have hInv2 : LoaderInv { st with isDelayedAssign := true } := hInv
                  obtain ⟨h1, hle1⟩ := stmtBodyWith_pres _
                    (fun x s s' h hk => ih x s s' h hk) hInv2 heq
                  cases hok
                  exact ⟨h1, hle1⟩
              · split at hok
                · split at hok
                  · exact walkKidsWith_pres _ (fun x s s' h hk => ih x s s' h hk)
                      children st st' hInv hok
                  · exact stmtBodyWith_pres _ (fun x s s' h hk => ih x s s' h hk) hInv hok
                · split at hok
                  · exact stmtBodyWith_pres _ (fun x s s' h hk => ih x s s' h hk) hInv hok
                  · exact walkKidsWith_pres _ (fun x s s' h hk => ih x s s' h hk)
                      children st st' hInv hok

/-- C2 (amended): in the graph produced by the loader, every edge has at
least one logic endpoint, except for the port-stitching edges `newVar`
adds between a declared port and its `origName`-matching internal
variable, whose two endpoints are both port variables; no other edge
connects two variable vertices directly. -/
theorem claim_C2_amended (children : List XML) (g : Graph)
    (hok : readXML children = Except.ok g) :
    ∀ e ∈ g.edges, isLogicAt g e.1 = true ∨ isLogicAt g e.2 = true ∨
      (isPortAt g e.1 = true ∧ isPortAt g e.2 = true) := by
  intro e he
  have hOK : edgeOKb g e = true := by
    simp only [readXML] at hok
    split at hok
    · split at hok
      · split at hok
        · cases hok
        · rename_i st hwalk
          split at hok
          · cases hok
          · split at hok
            · cases hok
              exact (walkF_pres _ _ _ _ initLoaderState_inv hwalk).1.1 e he
            · cases hok
      · cases hok
        cases he
    · cases hok
      cases he
  simp only [edgeOKb, Bool.or_eq_true, Bool.and_eq_true] at hOK
  tauto

/-- C2 witness: the loader applied to the port-stitching netlist
`cexC2Input` succeeds, and every edge of the resulting graph satisfies
the amended shape (the `(0,1)` and `(1,0)` stitch edges join two port
variables). -/
theorem claim_C2_witness :
    isLogicAt gStitch 0 = true ∨ isLogicAt gStitch 1 = true ∨
      (isPortAt gStitch 0 = true ∧ isPortAt gStitch 1 = true) :=
  claim_C2_amended cexC2Input gStitch (by rfl) (0, 1) (by decide)

end NetlistPathsModel
